import Mathlib

/-!
Shallow embedding of the oxide-arbiter order-book service
(`src/components/services.rs`, data model in `src/components/dto.rs`).

Modelling choices:
* prices and quantities are exact rationals (the spec demands an exact
  decimal representation; the claims under study are control-flow
  properties that do not depend on rounding);
* UUIDs are natural numbers drawn from a fresh counter carried in the
  service state (the source treats UUID generation as an injected
  service), timestamps are natural numbers passed explicitly as `now`;
* `HashMap` becomes an association list (the source never iterates the
  maps it stores, only `get`/`insert`/`remove`, so iteration order is
  irrelevant), `BTreeMap` becomes an association list kept sorted by
  key, `VecDeque` becomes a list;
* `Vec::remove(i)` panics when `i` is out of range, so it is modelled
  as an `Option`; operations that can reach such a panic return an
  `Option` / a result type with a `panic` constructor.
* the source iterates the `matched_trade_list : HashMap<usize, Order>`
  whose iteration order is unspecified; the model iterates it in
  insertion order.  Every theorem below that exercises this loop does
  so on runs where the map is empty or a singleton, where the order is
  immaterial.
-/

namespace OxideArbiter

inductive TimeInForce where
  | GTC | IOC | FOK | DAY
deriving DecidableEq, Repr

inductive OrderSide where
  | Buy | Sell
deriving DecidableEq, Repr

inductive OrderStatus where
  | Open | PartiallyFilled | Closed | Cancelled
deriving DecidableEq, Repr

inductive OrderType where
  | Limit | Market
deriving DecidableEq, Repr

structure Order where
  id : Nat
  item_id : Nat
  user_id : Nat
  order_side : OrderSide
  order_type : OrderType
  time_in_force : TimeInForce
  price : Rat
  quantity : Rat
  quantity_filled : Rat
  status : OrderStatus
  created_at : Nat
  updated_at : Nat
  expires_at : Option Nat
deriving DecidableEq, Repr

structure Trade where
  id : Nat
  buy_order_id : Nat
  sell_order_id : Nat
  item_id : Nat
  quantity : Rat
  price : Rat
  timestamp : Nat
deriving DecidableEq, Repr

structure CreateOrderRequest where
  item_id : Nat
  user_id : Nat
  order_side : OrderSide
  order_type : OrderType
  price : Rat
  quantity : Rat
  time_in_force : TimeInForce
deriving DecidableEq, Repr

/-- Association-list lookup (model of `HashMap::get`). -/
def alLookup {α : Type} : List (Nat × α) → Nat → Option α
  | [], _ => none
  | (k, v) :: rest, key => if k = key then some v else alLookup rest key

/-- Association-list insert-or-replace (model of `HashMap::insert` /
`entry(..).or_default()` followed by mutation). -/
def alUpdate {α : Type} : List (Nat × α) → Nat → α → List (Nat × α)
  | [], key, v => [(key, v)]
  | (k, w) :: rest, key, v =>
      if k = key then (k, v) :: rest else (k, w) :: alUpdate rest key v

/-- Association-list removal (model of `HashMap::remove`). -/
def alErase {α : Type} : List (Nat × α) → Nat → List (Nat × α)
  | [], _ => []
  | (k, w) :: rest, key => if k = key then rest else (k, w) :: alErase rest key

/-- A price level map: `BTreeMap<price, VecDeque<Order>>`, kept sorted by
ascending price key. -/
abbrev PriceMap := List (Rat × List Order)

def pmGet : PriceMap → Rat → Option (List Order)
  | [], _ => none
  | (p, q) :: rest, key => if p = key then some q else pmGet rest key

def pmSetKey : PriceMap → Rat → List Order → PriceMap
  | [], key, q => [(key, q)]
  | (p, w) :: rest, key, q =>
      if p = key then (p, q) :: rest else (p, w) :: pmSetKey rest key q

def pmEraseKey : PriceMap → Rat → PriceMap
  | [], _ => []
  | (p, w) :: rest, key => if p = key then rest else (p, w) :: pmEraseKey rest key

/-- `entry(price).or_default().push_back(o)` on a `BTreeMap`: append to the
queue at `price`, creating the bucket at its sorted position if absent. -/
def pmPush : PriceMap → Rat → Order → PriceMap
  | [], p, o => [(p, [o])]
  | (q, os) :: rest, p, o =>
      if p < q then (p, [o]) :: (q, os) :: rest
      else if p = q then (q, os ++ [o]) :: rest
      else (q, os) :: pmPush rest p o

/-- One side of the book: `HashMap<item_id, BTreeMap<price, VecDeque<Order>>>`. -/
abbrev Book := List (Nat × PriceMap)

/-- Does the price-level index hold an entry for the given order id? -/
def bookContains (book : Book) (item : Nat) (id : Nat) : Bool :=
  match alLookup book item with
  | none => false
  | some pm => pm.any fun lvl => lvl.2.any fun o => o.id = id

/-- `buy_orders.entry(item).or_default().entry(price).or_default().push_back(o)` -/
def bookInsert (book : Book) (item : Nat) (p : Rat) (o : Order) : Book :=
  let pm := (alLookup book item).getD []
  alUpdate book item (pmPush pm p o)

structure OrderBookService where
  orders : List (Nat × Order)
  buy_orders : Book
  sell_orders : Book
  trades : List Trade
  /-- models the injected UUID factory: the next fresh identifier -/
  nextId : Nat
deriving DecidableEq, Repr

def OrderBookService.new : OrderBookService :=
  { orders := [], buy_orders := [], sell_orders := [], trades := [], nextId := 0 }

def get_order_by_id (st : OrderBookService) (order_id : Nat) : Option Order :=
  alLookup st.orders order_id

/-- `get_current_market_price`: best opposite-side resting price.
`iter().next()` on a `BTreeMap` yields the smallest key, `next_back()` the
largest; on the sorted `PriceMap` these are `head?` and `getLast?`. -/
def get_current_market_price (st : OrderBookService) (item_id : Nat)
    (order_side : OrderSide) : Option Rat :=
  match order_side with
  | .Buy =>
      match alLookup st.sell_orders item_id with
      | none => none
      | some pm => pm.head?.map Prod.fst
  | .Sell =>
      match alLookup st.buy_orders item_id with
      | none => none
      | some pm => pm.getLast?.map Prod.fst

def update_order_status (st : OrderBookService) (now : Nat) (order_id : Nat)
    (new_status : OrderStatus) : OrderBookService :=
  match alLookup st.orders order_id with
  | none => st
  | some o =>
      let o' := { o with status := new_status, updated_at := now }
      { st with orders := alUpdate st.orders order_id o' }

/-- `cancel_order`: unconditionally stamps any found order `Cancelled`.
Returns the boolean the source returns together with the new state. -/
def cancel_order (st : OrderBookService) (now : Nat) (order_id : Nat) :
    Bool × OrderBookService :=
  match alLookup st.orders order_id with
  | none => (false, st)
  | some o =>
      let o' := { o with status := OrderStatus.Cancelled, updated_at := now }
      (true, { st with orders := alUpdate st.orders order_id o' })

def update_order_quantity (st : OrderBookService) (now : Nat) (order_id : Nat)
    (new_quantity : Rat) : OrderBookService :=
  match alLookup st.orders order_id with
  | none => st
  | some o =>
      let o' := { o with quantity := new_quantity, updated_at := now }
      { st with orders := alUpdate st.orders order_id o' }

def update_order_price (st : OrderBookService) (now : Nat) (order_id : Nat)
    (new_price : Rat) : OrderBookService :=
  match alLookup st.orders order_id with
  | none => st
  | some o =>
      let o' := { o with price := new_price, updated_at := now }
      { st with orders := alUpdate st.orders order_id o' }

/-- The price-map part of `remove_from_book`: retain every queue entry
with a different id at the order's price bucket, dropping the bucket if
it empties. -/
def pmRemoveOrder (pm : PriceMap) (price : Rat) (order_id : Nat) : PriceMap :=
  match pmGet pm price with
  | none => pm
  | some q =>
      if q.filter (fun x => x.id ≠ order_id) = [] then pmEraseKey pm price
      else pmSetKey pm price (q.filter fun x => x.id ≠ order_id)

/-- The book-side part of `remove_from_book`: remove the order's entry,
dropping the per-item map if it empties. -/
def bookRemove (book : Book) (item : Nat) (price : Rat) (order_id : Nat) : Book :=
  match alLookup book item with
  | none => book
  | some pm =>
      if pmRemoveOrder pm price order_id = [] then alErase book item
      else alUpdate book item (pmRemoveOrder pm price order_id)

/-- `remove_from_book`: delete the order's entry from its side's index,
dropping empty price buckets and empty per-item maps. -/
def remove_from_book (st : OrderBookService) (order_id : Nat) : OrderBookService :=
  match alLookup st.orders order_id with
  | none => st
  | some o =>
      match o.order_side with
      | .Buy =>
          { st with buy_orders := bookRemove st.buy_orders o.item_id o.price order_id }
      | .Sell =>
          { st with sell_orders := bookRemove st.sell_orders o.item_id o.price order_id }

/-- `fill_order`: add to `quantity_filled`, recompute status, stamp
`updated_at`.  Acts on the order store only. -/
def fillOrders (orders : List (Nat × Order)) (now : Nat) (order_id : Nat)
    (quantity_filled : Rat) : List (Nat × Order) :=
  match alLookup orders order_id with
  | none => orders
  | some o =>
      let f := o.quantity_filled + quantity_filled
      let stat := if o.quantity ≤ f then OrderStatus.Closed else OrderStatus.PartiallyFilled
      let o' := { o with quantity_filled := f, status := stat, updated_at := now }
      alUpdate orders order_id o'

def fill_order (st : OrderBookService) (now : Nat) (order_id : Nat)
    (quantity_filled : Rat) : OrderBookService :=
  { st with orders := fillOrders st.orders now order_id quantity_filled }

def can_match_price (incoming resting : Order) : Bool :=
  match incoming.order_type, incoming.order_side with
  | .Market, _ => true
  | .Limit, .Buy => resting.price ≤ incoming.price
  | .Limit, .Sell => incoming.price ≤ resting.price

/-- Scratch state threaded through the matching walk of
`execute_order_matching`: the order store, the UUID counter, the local
staged `trades` vector, `matched_trade_list` (staged-trade index paired
with the resting-order snapshot resolved from the store just before the
fill, in insertion order), and the local `incoming_order`. -/
structure WalkState where
  orders : List (Nat × Order)
  nextId : Nat
  trades : List Trade
  matched : List (Nat × Order)
  incoming : Order
deriving DecidableEq, Repr

/-- Source lines 332-335: copy the incoming order's `quantity` and
`quantity_filled` back from its store entry into the local
`incoming_order` after the fills. -/
def syncIncoming (orders : List (Nat × Order)) (incoming : Order) : Order :=
  match alLookup orders incoming.id with
  | some o =>
      { incoming with quantity := o.quantity,
                      quantity_filled := o.quantity_filled }
  | none => incoming

/-- One successful iteration of the inner matching loop: stage the
trade, record the resting snapshot in `matched_trade_list`, fill both
orders in the store, and re-sync the local incoming order from the
store (source lines 307-335). -/
def matchStep (now : Nat) (level_price : Rat) (w : WalkState) (resting : Order) :
    WalkState :=
  let trade_quantity := min (resting.quantity - resting.quantity_filled)
    (w.incoming.quantity - w.incoming.quantity_filled)
  let t : Trade :=
    { id := w.nextId
      buy_order_id :=
        if w.incoming.order_side = .Buy then w.incoming.id else resting.id
      sell_order_id :=
        if w.incoming.order_side = .Sell then w.incoming.id else resting.id
      item_id := w.incoming.item_id
      quantity := trade_quantity
      price := level_price
      timestamp := now }
  let orders1 := fillOrders w.orders now resting.id trade_quantity
  let orders2 := fillOrders orders1 now w.incoming.id trade_quantity
  { orders := orders2
    nextId := w.nextId + 1
    trades := w.trades ++ [t]
    matched := w.matched ++ [(w.trades.length, resting)]
    incoming := syncIncoming orders2 w.incoming }

/-- Inner loop of `execute_order_matching` over one price level's FIFO
queue.  Each `break` of the source returns the walk state unchanged from
that point on: a book entry whose id no longer resolves, a failed
crossing test, non-positive available resting quantity, or a
non-positive trade quantity. -/
def matchQueue (now : Nat) (level_price : Rat) : WalkState → List Order → WalkState
  | w, [] => w
  | w, r :: rest =>
    match alLookup w.orders r.id with
    | none => w
    | some resting =>
      if ¬ can_match_price w.incoming resting then w
      else if resting.quantity - resting.quantity_filled ≤ 0 then w
      else if min (resting.quantity - resting.quantity_filled)
          (w.incoming.quantity - w.incoming.quantity_filled) ≤ 0 then w
      else matchQueue now level_price (matchStep now level_price w resting) rest

/-- Outer loop of the walk: price levels in matching-priority order. -/
def matchLevels (now : Nat) : WalkState → List (Rat × List Order) → WalkState
  | w, [] => w
  | w, (lp, q) :: rest => matchLevels now (matchQueue now lp w q) rest

/-- `Vec::remove(i)`: panics (`none`) when the index is out of range. -/
def listRemoveAt {α : Type} (l : List α) (i : Nat) : Option (List α) :=
  if i < l.length then some (l.eraseIdx i) else none

def removeIndices (l : List Trade) : List Nat → Option (List Trade)
  | [] => some l
  | i :: is =>
    match listRemoveAt l i with
    | none => none
    | some l' => removeIndices l' is

/-- Post-processing of `execute_order_matching` (source lines 339-369):
IOC trim, FOK "revert", matched-order book removal, self removal, and
the final append of the staged trades to the committed log.  Returns
`none` when the source panics (`self.trades.remove(trade_index)` with an
out-of-range index, or the `unwrap` of a missing incoming order). -/
def execute_post (st : OrderBookService) (now : Nat) (incoming_order : Order)
    (w : WalkState) : Option (OrderBookService × Order) :=
  let st1 : OrderBookService := { st with orders := w.orders, nextId := w.nextId }
  match alLookup st1.orders incoming_order.id with
  | none => none
  | some updated_incoming =>
    let st2 :=
      if 0 < w.trades.length ∧ incoming_order.time_in_force = .IOC then
        update_order_status
          (update_order_quantity st1 now incoming_order.id
            updated_incoming.quantity_filled)
          now incoming_order.id .Closed
      else st1
    let doRevert :=
      (w.trades.length = 0 ∧ incoming_order.time_in_force = .FOK) ∨
        (incoming_order.time_in_force = .FOK ∧
          updated_incoming.quantity_filled ≠ updated_incoming.quantity)
    let st3 := if doRevert then (cancel_order st2 now incoming_order.id).2 else st2
    let logAfterRevert :=
      if doRevert then removeIndices st3.trades (w.matched.map Prod.fst)
      else some st3.trades
    match logAfterRevert with
    | none => none
    | some log =>
      let st4 : OrderBookService := { st3 with trades := log }
      let st5 :=
        if doRevert then st4
        else w.matched.foldl (fun s p => remove_from_book s p.2.id) st4
      let st6 :=
        if w.incoming.quantity_filled = w.incoming.quantity then
          remove_from_book st5 incoming_order.id
        else st5
      some ({ st6 with trades := st6.trades ++ w.trades }, w.incoming)

/-- `execute_order_matching`: walk the opposing book in priority order,
then post-process. -/
def execute_order_matching (st : OrderBookService) (now : Nat)
    (incoming_order : Order) : Option (OrderBookService × Order) :=
  let order_book_side :=
    match incoming_order.order_side with
    | .Buy => st.sell_orders
    | .Sell => st.buy_orders
  match alLookup order_book_side incoming_order.item_id with
  | none => some (st, incoming_order)
  | some price_maps =>
    let levels :=
      match incoming_order.order_side with
      | .Buy => price_maps
      | .Sell => price_maps.reverse
    let w0 : WalkState :=
      { orders := st.orders
        nextId := st.nextId
        trades := []
        matched := []
        incoming := incoming_order }
    execute_post st now incoming_order (matchLevels now w0 levels)

/-- Outcome of `add_order`: a panic, an `Err(msg)` (the state component
is the untouched receiver), or `Ok(order)` with the final state. -/
inductive AddOrderResult where
  | panic
  | err (msg : String) (st : OrderBookService)
  | ok (order : Order) (st : OrderBookService)
deriving DecidableEq, Repr

/-- `chrono::Duration::days(1)` in seconds. -/
def day_seconds : Nat := 86400

def no_ref_price_message : String :=
  "Market order cannot be placed without any existing orders to determine price"

def slippage_prefix : String :=
  "Market order price cannot be more than 5% away from the current market price. Current market price: "

def slippage_message (market_price order_price : Rat) : String :=
  slippage_prefix ++ toString market_price ++ ", Order price: " ++ toString order_price

/-- The adverse difference between the reference market price and the
requested price (`add_order`, the `price_difference` match): positive
only when a Buy would pay above its bound or a Sell would receive below
its bound. -/
def price_difference (side : OrderSide) (market_price order_price : Rat) : Rat :=
  match side with
  | .Buy => if order_price < market_price then market_price - order_price else 0
  | .Sell => if market_price < order_price then order_price - market_price else 0

/-- The tail of `add_order` after validation and market pricing: insert
the order into the store, run matching, and park any Open or
PartiallyFilled residual on its own side's book. -/
def add_order_commit (st : OrderBookService) (now : Nat) (order1 : Order) :
    AddOrderResult :=
  let st1 : OrderBookService :=
    { st with orders := alUpdate st.orders order1.id order1,
              nextId := st.nextId + 1 }
  match execute_order_matching st1 now order1 with
  | none => .panic
  | some (st2, _) =>
    match alLookup st2.orders order1.id with
    | none => .panic
    | some updated_order =>
      if updated_order.status = .Open ∨ updated_order.status = .PartiallyFilled then
        match updated_order.order_side with
        | .Buy =>
            let b := bookInsert st2.buy_orders updated_order.item_id
              updated_order.price updated_order
            .ok updated_order { st2 with buy_orders := b }
        | .Sell =>
            let b := bookInsert st2.sell_orders updated_order.item_id
              updated_order.price updated_order
            .ok updated_order { st2 with sell_orders := b }
      else .ok updated_order st2

def add_order (st : OrderBookService) (now : Nat) (r : CreateOrderRequest) :
    AddOrderResult :=
  if r.price < 0 then .err "Price cannot be negative" st
  else if r.quantity ≤ 0 then .err "Quantity must be greater than zero" st
  else
    let expires_at : Option Nat :=
      match r.time_in_force with
      | .DAY => some (now + day_seconds)
      | .IOC => some now
      | _ => none
    let order0 : Order :=
      { id := st.nextId
        item_id := r.item_id
        user_id := r.user_id
        order_side := r.order_side
        order_type := r.order_type
        time_in_force := r.time_in_force
        price := r.price
        quantity := r.quantity
        quantity_filled := 0
        status := .Open
        created_at := now
        updated_at := now
        expires_at := expires_at }
    let market_step : Except String Order :=
      if r.order_type = .Market then
        match get_current_market_price st r.item_id r.order_side with
        | some market_price =>
            if order0.price * (5 / 100) <
                price_difference r.order_side market_price order0.price then
              Except.error (slippage_message market_price order0.price)
            else Except.ok { order0 with price := market_price }
        | none => Except.error no_ref_price_message
      else Except.ok order0
    match market_step with
    | .error msg => .err msg st
    | .ok order1 => add_order_commit st now order1

/-- The returned order of an `Ok` outcome. -/
def resOrder : AddOrderResult → Option Order
  | .ok o _ => some o
  | _ => none

/-- The post-call state of an `Ok` outcome. -/
def resState : AddOrderResult → Option OrderBookService
  | .ok _ s => some s
  | _ => none

/-- No duplicate keys in an association list; every map reachable from
an empty service through the operations above satisfies it. -/
def alNodup {α : Type} : List (Nat × α) → Prop
  | [] => True
  | (k, _) :: rest => alLookup rest k = none ∧ alNodup rest

instance alNodupDec {α : Type} : (l : List (Nat × α)) → Decidable (alNodup l)
  | [] => .isTrue trivial
  | (_, _) :: rest =>
      match h : alLookup rest _, alNodupDec rest with
      | none, .isTrue ht => .isTrue ⟨h, ht⟩
      | none, .isFalse hf => .isFalse (fun hc => hf hc.2)
      | some _, _ => .isFalse (fun hc => Option.noConfusion (h.symm.trans hc.1))

/-- What a resting or incoming order may undergo during the matching
walk: `fill_order` only grows `quantity_filled` and rewrites `status`
and `updated_at`; every other field is preserved. -/
def FillEvol (a b : Order) : Prop :=
  b.id = a.id ∧ b.item_id = a.item_id ∧ b.user_id = a.user_id ∧
    b.order_side = a.order_side ∧ b.order_type = a.order_type ∧
    b.time_in_force = a.time_in_force ∧ b.price = a.price ∧
    b.quantity = a.quantity ∧ a.quantity_filled ≤ b.quantity_filled ∧
    b.created_at = a.created_at ∧ b.expires_at = a.expires_at

/-- Pointwise evolution of the order store: no entry appears or
disappears, and every entry undergoes a `FillEvol`. -/
def StoreEvol (a b : List (Nat × Order)) : Prop :=
  ∀ k, (alLookup a k = none → alLookup b k = none) ∧
    (∀ u, alLookup a k = some u → ∃ u', alLookup b k = some u' ∧ FillEvol u u')

/-- The fill-bound invariant of the spec: every store entry satisfies
`0 ≤ quantity_filled ≤ quantity`. -/
def StoreBounds (orders : List (Nat × Order)) : Prop :=
  ∀ p ∈ orders, 0 ≤ p.2.quantity_filled ∧ p.2.quantity_filled ≤ p.2.quantity

instance storeBoundsDec (orders : List (Nat × Order)) :
    Decidable (StoreBounds orders) :=
  inferInstanceAs (Decidable (∀ p ∈ orders,
    0 ≤ p.2.quantity_filled ∧ p.2.quantity_filled ≤ p.2.quantity))

/-- Every store entry's order carries its own key as `id` (the source
always inserts `order.id` as the `HashMap` key). -/
def StoreIds (orders : List (Nat × Order)) : Prop :=
  ∀ p ∈ orders, p.2.id = p.1

instance storeIdsDec (orders : List (Nat × Order)) :
    Decidable (StoreIds orders) :=
  inferInstanceAs (Decidable (∀ p ∈ orders, p.2.id = p.1))

/-- The local `incoming_order` agrees with its store entry on
`quantity` and `quantity_filled` (re-established by `syncIncoming`
after every fill). -/
def IncSync (w : WalkState) : Prop :=
  ∀ u, alLookup w.orders w.incoming.id = some u →
    u.quantity = w.incoming.quantity ∧
      u.quantity_filled = w.incoming.quantity_filled

/-- Every entry persists and its `quantity_filled` never decreases. -/
def FilledMono (a b : List (Nat × Order)) : Prop :=
  ∀ k u, alLookup a k = some u →
    ∃ u', alLookup b k = some u' ∧ u.quantity_filled ≤ u'.quantity_filled

/-- All order ids resting in a book side are below the fresh counter. -/
def BookIdsLt (book : Book) (n : Nat) : Prop :=
  ∀ p ∈ book, ∀ lvl ∈ p.2, ∀ o ∈ lvl.2, o.id < n

instance bookIdsLtDec (book : Book) (n : Nat) : Decidable (BookIdsLt book n) :=
  inferInstanceAs (Decidable (∀ p ∈ book, ∀ lvl ∈ p.2, ∀ o ∈ lvl.2, o.id < n))

/-- The price-level indices of `b` arise from those of `a` by removals
only: key-uniqueness is preserved and no entry appears. -/
def BooksShrink (a b : OrderBookService) : Prop :=
  alNodup a.buy_orders → alNodup a.sell_orders →
    alNodup b.buy_orders ∧ alNodup b.sell_orders ∧
      (∀ item i, bookContains b.buy_orders item i = true →
        bookContains a.buy_orders item i = true) ∧
      (∀ item i, bookContains b.sell_orders item i = true →
        bookContains a.sell_orders item i = true)

/-! ### Concrete runs

All runs trade the single item `1` for user `7`; identifiers are
assigned `0, 1, 2, …` by the fresh counter and call times are
`0, 1, 2, …` unless a run needs a late clock. -/

def mkReq (side : OrderSide) (ty : OrderType) (tif : TimeInForce) (p q : Rat) :
    CreateOrderRequest :=
  { item_id := 1, user_id := 7, order_side := side, order_type := ty,
    price := p, quantity := q, time_in_force := tif }

def stOf (res : AddOrderResult) : OrderBookService :=
  (resState res).getD OrderBookService.new

def dummyOrder : Order :=
  { id := 0, item_id := 0, user_id := 0, order_side := .Buy,
    order_type := .Limit, time_in_force := .GTC, price := 0, quantity := 0,
    quantity_filled := 0, status := .Open, created_at := 0, updated_at := 0,
    expires_at := none }

def ordOf (res : AddOrderResult) : Order :=
  (resOrder res).getD dummyOrder

/-- Rest a GTC sell `10 @ 10` (id 0), cross it partially with a GTC buy
for 5 (id 1, trade id 2 committed), rest another GTC sell `10 @ 10`
(id 3). -/
def c1_s1 : OrderBookService :=
  stOf (add_order OrderBookService.new 0 (mkReq .Sell .Limit .GTC 10 10))
def c1_s2 : OrderBookService :=
  stOf (add_order c1_s1 1 (mkReq .Buy .Limit .GTC 10 5))
def c1_s3 : OrderBookService :=
  stOf (add_order c1_s2 2 (mkReq .Sell .Limit .GTC 10 10))
/-- A FOK buy for 20 that can only fill 10 against the resting id 3. -/
def c1_res : AddOrderResult := add_order c1_s3 3 (mkReq .Buy .Limit .FOK 10 20)

/-- Rest a GTC buy `200 @ 30` (id 0), partially fill it with a GTC sell
for 80 (id 1), rest a GTC buy `10 @ 10` (id 3), cancel it. -/
def c2_s1 : OrderBookService :=
  stOf (add_order OrderBookService.new 0 (mkReq .Buy .Limit .GTC 30 200))
def c2_s2 : OrderBookService :=
  stOf (add_order c2_s1 1 (mkReq .Sell .Limit .GTC 30 80))
def c2_s3 : OrderBookService :=
  stOf (add_order c2_s2 2 (mkReq .Buy .Limit .GTC 10 10))
def c2_s4 : OrderBookService := (cancel_order c2_s3 3 3).2

/-- An IOC buy `10 @ 10` submitted to an empty book: it matches nothing. -/
def c4_res : AddOrderResult :=
  add_order OrderBookService.new 0 (mkReq .Buy .Limit .IOC 10 10)

/-- Rest a GTC sell `50 @ 10` (id 0), then submit an IOC buy for 100 at
price 10: one trade for 50 executes and the residual is trimmed. -/
def c4w_st : OrderBookService :=
  stOf (add_order OrderBookService.new 0 (mkReq .Sell .Limit .GTC 10 50))
def c4w_req : CreateOrderRequest := mkReq .Buy .Limit .IOC 10 100
def c4w_res : AddOrderResult := add_order c4w_st 1 c4w_req

/-- Rest a GTC buy `50 @ 25` (id 0) and cancel it; then fully cross a
GTC sell `10 @ 10` (id 1) with a GTC buy (id 2) and cancel the Closed
sell. -/
def c5_s1 : OrderBookService :=
  stOf (add_order OrderBookService.new 0 (mkReq .Buy .Limit .GTC 25 50))
def c5_s2 : OrderBookService := (cancel_order c5_s1 1 0).2
def c5_s3 : OrderBookService :=
  stOf (add_order c5_s2 2 (mkReq .Sell .Limit .GTC 10 10))
def c5_s4 : OrderBookService :=
  stOf (add_order c5_s3 3 (mkReq .Buy .Limit .GTC 10 10))
def c5_s5 : OrderBookService := (cancel_order c5_s4 4 1).2

/-- Rest a DAY sell `10 @ 10` at time 0 (id 0, `expires_at = 86400`);
submit a crossing GTC buy at time 200000, long past the expiry. -/
def c8_s1 : OrderBookService :=
  stOf (add_order OrderBookService.new 0 (mkReq .Sell .Limit .DAY 10 10))
def c8_res : AddOrderResult := add_order c8_s1 200000 (mkReq .Buy .Limit .GTC 10 10)

/-- Rest a GTC sell `10 @ 10` (id 0) on an empty service, then submit a
FOK buy for 20: one trade is staged while the committed log is empty. -/
def c10_s1 : OrderBookService :=
  stOf (add_order OrderBookService.new 0 (mkReq .Sell .Limit .GTC 10 10))
def c10_res : AddOrderResult := add_order c10_s1 1 (mkReq .Buy .Limit .FOK 10 20)

/-- Rest a GTC buy `10 @ 10` (id 0), then shrink its quantity to `-1`
with the administrative mutator while nothing was ever filled. -/
def c9_s1 : OrderBookService :=
  stOf (add_order OrderBookService.new 0 (mkReq .Buy .Limit .GTC 10 10))
def c9_s2 : OrderBookService := update_order_quantity c9_s1 1 0 (-1)

/-- Price improvement: rest a GTC ask `5 @ 9` (id 0), submit a GTC buy
limit `1 @ 10`: the trade prints at the maker's 9, not the taker's 10. -/
def c6_s1 : OrderBookService :=
  stOf (add_order OrderBookService.new 0 (mkReq .Sell .Limit .GTC 9 5))
def c6_res : AddOrderResult := add_order c6_s1 1 (mkReq .Buy .Limit .GTC 10 1)

/-- The walk of the `c6` run, set up by hand: the incoming buy and the
sell book's level list for item 1. -/
def c6_inc : Order :=
  { id := 1, item_id := 1, user_id := 7, order_side := .Buy,
    order_type := .Limit, time_in_force := .GTC, price := 10, quantity := 1,
    quantity_filled := 0, status := .Open, created_at := 1, updated_at := 1,
    expires_at := none }
def c6_w : WalkState := ⟨c6_s1.orders, c6_s1.nextId, [], [], c6_inc⟩
def c6_levels : List (Rat × List Order) := (alLookup c6_s1.sell_orders 1).getD []

/-- FIFO at one price: two GTC asks `10 @ 10` (ids 0 and 1), then a GTC
buy for 1 unit at 10: only the first ask is touched. -/
def c3_s1 : OrderBookService :=
  stOf (add_order OrderBookService.new 0 (mkReq .Sell .Limit .GTC 10 10))
def c3_s2 : OrderBookService :=
  stOf (add_order c3_s1 1 (mkReq .Sell .Limit .GTC 10 10))
def c3_res : AddOrderResult := add_order c3_s2 2 (mkReq .Buy .Limit .GTC 10 1)

/-- A non-crossing walk for the witness: a limit buy at 5 against the
ask level at 10 of the `c3` book. -/
def c3w_inc : Order :=
  { id := 2, item_id := 1, user_id := 7, order_side := .Buy,
    order_type := .Limit, time_in_force := .GTC, price := 5, quantity := 1,
    quantity_filled := 0, status := .Open, created_at := 2, updated_at := 2,
    expires_at := none }
def c3w_w : WalkState := ⟨c3_s2.orders, c3_s2.nextId, [], [], c3w_inc⟩
def c3w_levels : List (Rat × List Order) :=
  (alLookup c3_s2.sell_orders 1).getD []

/-! ### Claim theorems on the concrete runs

The toolchain ships the core `Rat` arithmetic operations as
`irreducible`, which blocks `decide` on concrete runs; they are
restored to their default reducibility inside this section only. -/

section ConcreteRuns

attribute [local semireducible] Rat.add Rat.sub Rat.mul Rat.inv

/-- **C1** (code bug).  The failed-FOK "revert" is not atomic.  In the
run `c1_res` the FOK buy (id 4) fills 10 of 20 against the resting sell
id 3 and is reverted, yet: the resting sell's fills persist (it moves
from `Open`/0 filled before the call to `Closed`/10 filled after), and
the trade log changes — the previously committed trade (id 2) is removed
by `self.trades.remove(0)` and the staged trade (id 5) is appended
anyway.  Only the incoming order's `Cancelled` status matches the claim. -/
theorem fok_partial_fill_mutates_log_and_resting :
    (alLookup c1_s3.orders 3).map (fun o => (o.status, o.quantity_filled))
        = some (.Open, 0) ∧
    c1_s3.trades = [⟨2, 1, 0, 1, 5, 10, 1⟩] ∧
    (resOrder c1_res).map (fun o => o.status) = some .Cancelled ∧
    (resState c1_res).map (fun s => s.trades) = some [⟨5, 4, 3, 1, 10, 10, 3⟩] ∧
    (resState c1_res).map (fun s =>
        (alLookup s.orders 3).map (fun o => (o.status, o.quantity_filled)))
        = some (some (.Closed, 10)) := by
  decide

/-- **C2** (code bug).  Book membership does not track status: after the
sell for 80 partially fills the resting buy id 0, that buy is
`PartiallyFilled` (80 of 200) in the store yet absent from the buy-side
index (`execute_order_matching` removes every matched resting order);
and after `cancel_order` the Cancelled buy id 3 is still present in the
buy-side index. -/
theorem partial_fill_and_cancel_break_book_membership :
    (alLookup c2_s2.orders 0).map (fun o => (o.status, o.quantity_filled))
        = some (.PartiallyFilled, 80) ∧
    bookContains c2_s2.buy_orders 1 0 = false ∧
    (alLookup c2_s4.orders 3).map (fun o => o.status) = some .Cancelled ∧
    bookContains c2_s4.buy_orders 1 3 = true := by
  decide

/-- **C4** counterexample.  An IOC order that matches nothing is not
trimmed and not closed: the call succeeds, the order comes back `Open`
with `quantity = 10 ≠ 0 = quantity_filled`, and its id 0 *is* inserted
into the buy-side price-level index (the IOC post-processing is guarded
by `trades.len() > 0`). -/
theorem ioc_no_match_rests_open_on_book :
    (resOrder c4_res).map (fun o => (o.status, o.quantity, o.quantity_filled))
        = some (.Open, 10, 0) ∧
    (resState c4_res).map (fun s => bookContains s.buy_orders 1 0) = some true := by
  decide

/-- **C5** (code bug).  `cancel_order` only restamps the store record:
after cancelling the resting GTC buy `50 @ 25` (id 0) the order is
`Cancelled` but the buy-side book still holds its id (the claim demands
an empty buy book); and cancelling the already-`Closed` sell id 1
overwrites its terminal status with `Cancelled` (the claim demands the
status be left unchanged). -/
theorem cancel_order_leaves_index_and_restamps_terminal :
    (alLookup c5_s2.orders 0).map (fun o => o.status) = some .Cancelled ∧
    bookContains c5_s2.buy_orders 1 0 = true ∧
    (alLookup c5_s4.orders 1).map (fun o => o.status) = some .Closed ∧
    (alLookup c5_s5.orders 1).map (fun o => o.status) = some .Cancelled := by
  decide

/-- **C8** (code bug).  Matching never consults `expires_at`: the DAY
sell id 0 expired at 86400, yet the buy submitted at time 200000 trades
10 units against it and the "expired" order ends `Closed` and fully
filled instead of being removed untouched. -/
theorem expired_day_order_still_matches :
    (alLookup c8_s1.orders 0).map (fun o => o.expires_at) = some (some 86400) ∧
    (86400 : Nat) < 200000 ∧
    (resState c8_res).map (fun s => s.trades) = some [⟨2, 1, 0, 1, 10, 10, 200000⟩] ∧
    (resState c8_res).map (fun s =>
        (alLookup s.orders 0).map (fun o => (o.status, o.quantity_filled)))
        = some (some (.Closed, 10)) := by
  decide

/-- **C10**.  A public `add_order` call panics: the FOK buy for 20 fills
10 against the resting sell and is reverted; the revert calls
`self.trades.remove(0)` on the *committed* trade log, which is empty
(the staged trade lives in the local vector), so the call aborts instead
of returning. -/
theorem fok_partial_fill_with_short_log_panics :
    c10_s1.trades = [] ∧ c10_res = .panic := by
  decide

/-- **C9** counterexample.  `update_order_quantity` writes the new
quantity without comparing it to `quantity_filled`: shrinking the
resting order's quantity to `-1` leaves its store entry with
`quantity_filled = 0 > quantity = -1`, so the claimed
`0 ≤ quantity_filled ≤ quantity` invariant fails after a public
operation. -/
theorem update_order_quantity_breaks_fill_bounds :
    (alLookup c9_s2.orders 0).map
        (fun o => (o.quantity_filled, o.quantity)) = some (0, -1) ∧
      ¬ StoreBounds c9_s2.orders := by
  decide

end ConcreteRuns

/-! ### C7: `add_order` error behaviour -/

/-- The slippage message is at least as long as its static prefix. -/
theorem slippage_prefix_le_length (market_price order_price : Rat) :
    slippage_prefix.length ≤ (slippage_message market_price order_price).length := by
  simp only [slippage_message, String.length_append]
  omega

/-- The slippage message never coincides with any of the shorter fixed
error messages. -/
theorem slippage_message_ne (market_price order_price : Rat) (s : String)
    (h : s.length < slippage_prefix.length) :
    slippage_message market_price order_price ≠ s := by
  intro he
  have h1 := slippage_prefix_le_length market_price order_price
  rw [he] at h1
  omega

/-- The three fixed error messages are each shorter than the slippage
prefix, hence distinct from every slippage message. -/
theorem price_msg_ne_slippage (m p : Rat) :
    "Price cannot be negative" ≠ slippage_message m p :=
  Ne.symm (slippage_message_ne m p "Price cannot be negative" (by decide))

theorem qty_msg_ne_slippage (m p : Rat) :
    "Quantity must be greater than zero" ≠ slippage_message m p :=
  Ne.symm (slippage_message_ne m p "Quantity must be greater than zero" (by decide))

theorem no_ref_ne_slippage (m p : Rat) :
    no_ref_price_message ≠ slippage_message m p :=
  Ne.symm (slippage_message_ne m p no_ref_price_message (by decide))

/-- After validation and market pricing succeed, `add_order` can only
panic or return `Ok`: no later `Err` exists. -/
theorem add_order_commit_ne_err (st : OrderBookService) (now : Nat) (o : Order)
    (msg : String) (st' : OrderBookService) :
    add_order_commit st now o ≠ .err msg st' := by
  simp only [add_order_commit]
  repeat' split
  all_goals intro hc
  all_goals exact AddOrderResult.noConfusion hc

/-- Exhaustive characterisation of the `Err` returns of `add_order`:
every error carries the untouched receiver state, and the message
identifies which of the four source checks fired, in source order. -/
theorem add_order_err_cases (st : OrderBookService) (now : Nat)
    (r : CreateOrderRequest) (msg : String) (st' : OrderBookService)
    (h : add_order st now r = .err msg st') :
    st' = st ∧
      ((msg = "Price cannot be negative" ∧ r.price < 0) ∨
        (msg = "Quantity must be greater than zero" ∧ ¬ r.price < 0 ∧ r.quantity ≤ 0) ∨
        (¬ r.price < 0 ∧ ¬ r.quantity ≤ 0 ∧ r.order_type = .Market ∧
          ((msg = no_ref_price_message ∧
              get_current_market_price st r.item_id r.order_side = none) ∨
            (∃ mp, get_current_market_price st r.item_id r.order_side = some mp ∧
              msg = slippage_message mp r.price ∧
              r.price * (5 / 100) < price_difference r.order_side mp r.price)))) := by
  by_cases h1 : r.price < 0
  · simp only [add_order, if_pos h1] at h
    injection h with hm hs
    exact ⟨hs.symm, Or.inl ⟨hm.symm, h1⟩⟩
  · by_cases h2 : r.quantity ≤ 0
    · simp only [add_order, if_neg h1, if_pos h2] at h
      injection h with hm hs
      exact ⟨hs.symm, Or.inr (Or.inl ⟨hm.symm, h1, h2⟩)⟩
    · simp only [add_order, if_neg h1, if_neg h2] at h
      by_cases hmkt : r.order_type = .Market
      · rw [if_pos hmkt] at h
        cases hg : get_current_market_price st r.item_id r.order_side with
        | none =>
            simp only [hg] at h
            injection h with hm hs
            exact ⟨hs.symm, Or.inr (Or.inr ⟨h1, h2, hmkt, Or.inl ⟨hm.symm, rfl⟩⟩)⟩
        | some mp =>
            simp only [hg] at h
            by_cases hs : r.price * (5 / 100) < price_difference r.order_side mp r.price
            · simp only [if_pos hs] at h
              injection h with hm he
              exact ⟨he.symm,
                Or.inr (Or.inr ⟨h1, h2, hmkt, Or.inr ⟨mp, rfl, hm.symm, hs⟩⟩)⟩
            · simp only [if_neg hs] at h
              exact absurd h (add_order_commit_ne_err st now _ _ _)
      · rw [if_neg hmkt] at h
        exact absurd h (add_order_commit_ne_err st now _ _ _)

/-- **C7**.  `add_order` error behaviour: the four error messages are
returned exactly under the conditions the source checks, in source
order (negative price first, then non-positive quantity, then — for
Market orders — missing reference price, then the 5% adverse-slippage
bound), and every `Err` return carries the receiver state unchanged. -/
theorem add_order_error_behaviour (st : OrderBookService) (now : Nat)
    (r : CreateOrderRequest) :
    (add_order st now r = .err "Price cannot be negative" st ↔ r.price < 0) ∧
    (add_order st now r = .err "Quantity must be greater than zero" st ↔
      ¬ r.price < 0 ∧ r.quantity ≤ 0) ∧
    (¬ r.price < 0 → ¬ r.quantity ≤ 0 → r.order_type = .Market →
      (add_order st now r = .err no_ref_price_message st ↔
        get_current_market_price st r.item_id r.order_side = none)) ∧
    (∀ market_price, ¬ r.price < 0 → ¬ r.quantity ≤ 0 → r.order_type = .Market →
      get_current_market_price st r.item_id r.order_side = some market_price →
      (add_order st now r = .err (slippage_message market_price r.price) st ↔
        r.price * (5 / 100) < price_difference r.order_side market_price r.price)) ∧
    (∀ msg st', add_order st now r = .err msg st' → st' = st) := by
  refine ⟨⟨fun h => ?_, fun h1 => by simp [add_order, h1]⟩,
    ⟨fun h => ?_, fun hq => by simp [add_order, hq.1, hq.2]⟩,
    fun h1 h2 hmkt => ⟨fun h => ?_, fun hg => by simp [add_order, h1, h2, hmkt, hg]⟩,
    fun mp h1 h2 hmkt hg => ⟨fun h => ?_,
      fun hs => by simp [add_order, h1, h2, hmkt, hg, hs]⟩,
    fun msg st' h => (add_order_err_cases st now r msg st' h).2.elim
      (fun _ => (add_order_err_cases st now r msg st' h).1)
      (fun _ => (add_order_err_cases st now r msg st' h).1)⟩
  · rcases (add_order_err_cases st now r _ _ h).2 with ⟨_, hp⟩ | ⟨hm, _⟩ | ⟨_, _, _, hrest⟩
    · exact hp
    · exact absurd hm (by decide)
    · rcases hrest with ⟨hm, _⟩ | ⟨mp, _, hm, _⟩
      · exact absurd hm (by decide)
      · exact absurd hm (price_msg_ne_slippage mp r.price)
  · rcases (add_order_err_cases st now r _ _ h).2 with ⟨hm, _⟩ | ⟨_, hq⟩ | ⟨_, _, _, hrest⟩
    · exact absurd hm (by decide)
    · exact hq
    · rcases hrest with ⟨hm, _⟩ | ⟨mp, _, hm, _⟩
      · exact absurd hm (by decide)
      · exact absurd hm (qty_msg_ne_slippage mp r.price)
  · rcases (add_order_err_cases st now r _ _ h).2 with ⟨hm, _⟩ | ⟨hm, _⟩ | ⟨_, _, _, hrest⟩
    · exact absurd hm (by decide)
    · exact absurd hm (by decide)
    · rcases hrest with ⟨_, hg⟩ | ⟨mp, _, hm, _⟩
      · exact hg
      · exact absurd hm (no_ref_ne_slippage mp r.price)
  · rcases (add_order_err_cases st now r _ _ h).2 with ⟨hm, _⟩ | ⟨hm, _⟩ | ⟨_, _, _, hrest⟩
    · exact absurd hm.symm (price_msg_ne_slippage mp r.price)
    · exact absurd hm.symm (qty_msg_ne_slippage mp r.price)
    · rcases hrest with ⟨hm, _⟩ | ⟨mp', hg', hm, hs⟩
      · exact absurd hm.symm (no_ref_ne_slippage mp r.price)
      · rw [hg] at hg'
        injection hg' with he
        rw [← he] at hs
        exact hs

/-! ### Association-list laws -/

theorem alLookup_alUpdate {α : Type} (l : List (Nat × α)) (k : Nat) (v : α)
    (key : Nat) :
    alLookup (alUpdate l k v) key = if k = key then some v else alLookup l key := by
  induction l with
  | nil => by_cases h : k = key <;> simp [alUpdate, alLookup, h]
  | cons hd tl ih =>
      obtain ⟨a, w⟩ := hd
      by_cases hak : a = k
      · subst hak
        by_cases h : a = key <;> simp [alUpdate, alLookup, h]
      · by_cases h : a = key
        · subst h
          simp [alUpdate, hak, alLookup, if_neg (fun he : k = a => hak he.symm)]
        · simp [alUpdate, hak, alLookup, h, ih]

theorem alLookup_alErase {α : Type} (l : List (Nat × α)) (k : Nat) (key : Nat)
    (hnd : alNodup l) :
    alLookup (alErase l k) key = if k = key then none else alLookup l key := by
  induction l with
  | nil => by_cases h : k = key <;> simp [alErase, alLookup, h]
  | cons hd tl ih =>
      obtain ⟨a, w⟩ := hd
      obtain ⟨hnone, hnd⟩ := hnd
      by_cases hak : a = k
      · subst hak
        simp only [alErase, if_pos rfl]
        by_cases h : a = key
        · subst h
          simp [if_pos rfl, hnone]
        · simp [alLookup, h, if_neg (fun he : a = key => h he)]
      · simp only [alErase, if_neg hak]
        by_cases h : a = key
        · subst h
          simp [alLookup, if_neg (fun he : k = a => hak he.symm)]
        · simp [alLookup, h, ih hnd]

theorem alNodup_alUpdate {α : Type} (l : List (Nat × α)) (k : Nat) (v : α)
    (hnd : alNodup l) : alNodup (alUpdate l k v) := by
  induction l with
  | nil => simp [alNodup, alUpdate, alLookup]
  | cons hd tl ih =>
      obtain ⟨a, w⟩ := hd
      obtain ⟨hnone, hnd⟩ := hnd
      by_cases hak : a = k
      · subst hak
        simp only [alUpdate, if_pos rfl]
        show alLookup tl a = none ∧ alNodup tl
        exact ⟨hnone, hnd⟩
      · simp only [alUpdate, if_neg hak]
        show alLookup (alUpdate tl k v) a = none ∧ alNodup (alUpdate tl k v)
        refine ⟨?_, ih hnd⟩
        rw [alLookup_alUpdate, if_neg (fun he : k = a => hak he.symm), hnone]

theorem alNodup_alErase {α : Type} (l : List (Nat × α)) (k : Nat)
    (hnd : alNodup l) : alNodup (alErase l k) := by
  induction l with
  | nil => simp [alNodup, alErase]
  | cons hd tl ih =>
      obtain ⟨a, w⟩ := hd
      obtain ⟨hnone, hnd⟩ := hnd
      by_cases hak : a = k
      · subst hak
        simp only [alErase, if_pos rfl]
        exact hnd
      · simp only [alErase, if_neg hak]
        show alLookup (alErase tl k) a = none ∧ alNodup (alErase tl k)
        refine ⟨?_, ih hnd⟩
        rw [alLookup_alErase tl k a hnd, if_neg (fun he : k = a => hak he.symm), hnone]

/-! ### Field-preservation lemmas for the simple mutators -/

theorem update_order_quantity_fields (st : OrderBookService) (now : Nat)
    (i : Nat) (q : Rat) :
    (update_order_quantity st now i q).buy_orders = st.buy_orders ∧
      (update_order_quantity st now i q).sell_orders = st.sell_orders ∧
      (update_order_quantity st now i q).trades = st.trades ∧
      (update_order_quantity st now i q).nextId = st.nextId := by
  unfold update_order_quantity
  split <;> simp

theorem update_order_status_fields (st : OrderBookService) (now : Nat)
    (i : Nat) (ns : OrderStatus) :
    (update_order_status st now i ns).buy_orders = st.buy_orders ∧
      (update_order_status st now i ns).sell_orders = st.sell_orders ∧
      (update_order_status st now i ns).trades = st.trades ∧
      (update_order_status st now i ns).nextId = st.nextId := by
  unfold update_order_status
  split <;> simp

theorem cancel_order_fields (st : OrderBookService) (now : Nat) (i : Nat) :
    (cancel_order st now i).2.buy_orders = st.buy_orders ∧
      (cancel_order st now i).2.sell_orders = st.sell_orders ∧
      (cancel_order st now i).2.trades = st.trades ∧
      (cancel_order st now i).2.nextId = st.nextId := by
  unfold cancel_order
  split <;> simp

theorem remove_from_book_fields (st : OrderBookService) (i : Nat) :
    (remove_from_book st i).orders = st.orders ∧
      (remove_from_book st i).trades = st.trades ∧
      (remove_from_book st i).nextId = st.nextId := by
  unfold remove_from_book
  repeat' split
  all_goals simp

theorem foldl_remove_from_book_fields (l : List (Nat × Order)) (s : OrderBookService) :
    (l.foldl (fun s p => remove_from_book s p.2.id) s).orders = s.orders ∧
      (l.foldl (fun s p => remove_from_book s p.2.id) s).trades = s.trades ∧
      (l.foldl (fun s p => remove_from_book s p.2.id) s).nextId = s.nextId := by
  induction l generalizing s with
  | nil => simp
  | cons hd tl ih =>
      simp only [List.foldl_cons]
      have h1 := remove_from_book_fields s hd.2.id
      have h2 := ih (remove_from_book s hd.2.id)
      exact ⟨h2.1.trans h1.1, h2.2.1.trans h1.2.1, h2.2.2.trans h1.2.2⟩

/-! ### Price-map membership and book-removal monotonicity -/

theorem mem_pmSetKey (pm : PriceMap) (key : Rat) (q : List Order)
    (lvl : Rat × List Order) (h : lvl ∈ pmSetKey pm key q) :
    lvl ∈ pm ∨ lvl = (key, q) := by
  induction pm with
  | nil =>
      simp only [pmSetKey, List.mem_singleton] at h
      exact Or.inr h
  | cons hd tl ih =>
      obtain ⟨p, w⟩ := hd
      by_cases hp : p = key
      · subst hp
        simp only [pmSetKey, if_pos rfl, if_true, List.mem_cons] at h
        rcases h with h | h
        · exact Or.inr h
        · exact Or.inl (List.mem_cons_of_mem _ h)
      · simp only [pmSetKey, if_neg hp, List.mem_cons] at h
        rcases h with h | h
        · exact Or.inl (by simp [h])
        · rcases ih h with h' | h'
          · exact Or.inl (List.mem_cons_of_mem _ h')
          · exact Or.inr h'

theorem mem_pmEraseKey (pm : PriceMap) (key : Rat) (lvl : Rat × List Order)
    (h : lvl ∈ pmEraseKey pm key) : lvl ∈ pm := by
  induction pm with
  | nil => simp [pmEraseKey] at h
  | cons hd tl ih =>
      obtain ⟨p, w⟩ := hd
      by_cases hp : p = key
      · subst hp
        simp only [pmEraseKey, if_pos rfl] at h
        exact List.mem_cons_of_mem _ h
      · simp only [pmEraseKey, if_neg hp, List.mem_cons] at h
        rcases h with h | h
        · simp [h]
        · exact List.mem_cons_of_mem _ (ih h)

theorem pmGet_mem (pm : PriceMap) (key : Rat) (q : List Order)
    (h : pmGet pm key = some q) : (key, q) ∈ pm := by
  induction pm with
  | nil => simp [pmGet] at h
  | cons hd tl ih =>
      obtain ⟨p, w⟩ := hd
      by_cases hp : p = key
      · subst hp
        simp only [pmGet, if_pos rfl, if_true, Option.some_inj] at h
        simp [h]
      · simp only [pmGet, if_neg hp] at h
        exact List.mem_cons_of_mem _ (ih h)

theorem bookContains_eq_any (book : Book) (item i : Nat) (pm : PriceMap)
    (hb : alLookup book item = some pm) :
    bookContains book item i = pm.any fun lvl => lvl.2.any fun o => o.id = i := by
  unfold bookContains
  rw [hb]

theorem bookContains_eq_false (book : Book) (item i : Nat)
    (hb : alLookup book item = none) : bookContains book item i = false := by
  unfold bookContains
  rw [hb]

theorem pmRemoveOrder_any (pm : PriceMap) (price : Rat) (j i : Nat)
    (h : (pmRemoveOrder pm price j).any (fun lvl => lvl.2.any fun o => o.id = i)
        = true) :
    pm.any (fun lvl => lvl.2.any fun o => o.id = i) = true := by
  unfold pmRemoveOrder at h
  split at h
  · exact h
  rename_i q hq
  split at h
  · rw [List.any_eq_true] at h ⊢
    obtain ⟨lvl, hmem, hin⟩ := h
    exact ⟨lvl, mem_pmEraseKey pm price lvl hmem, hin⟩
  · rw [List.any_eq_true] at h ⊢
    obtain ⟨lvl, hmem, hin⟩ := h
    rcases mem_pmSetKey pm price (q.filter fun x => x.id ≠ j) lvl hmem with hm | hm
    · exact ⟨lvl, hm, hin⟩
    · refine ⟨(price, q), pmGet_mem pm price q hq, ?_⟩
      rw [hm] at hin
      rw [List.any_eq_true] at hin ⊢
      obtain ⟨o, ho, hoid⟩ := hin
      exact ⟨o, (List.mem_filter.mp ho).1, hoid⟩

theorem bookContains_bookRemove (book : Book) (item0 : Nat) (price : Rat)
    (j item i : Nat) (hnd : alNodup book)
    (h : bookContains (bookRemove book item0 price j) item i = true) :
    bookContains book item i = true := by
  unfold bookRemove at h
  split at h
  · exact h
  rename_i pm hb
  by_cases hit : item0 = item
  · subst hit
    split at h
    · rw [bookContains_eq_false _ _ _
        (by rw [alLookup_alErase book item0 item0 hnd]; simp)] at h
      exact absurd h (by simp)
    · rw [bookContains_eq_any (alUpdate book item0 (pmRemoveOrder pm price j))
        item0 i (pmRemoveOrder pm price j) (by rw [alLookup_alUpdate]; simp)] at h
      rw [bookContains_eq_any book item0 i pm hb]
      exact pmRemoveOrder_any pm price j i h
  · split at h
    · rwa [bookContains, alLookup_alErase book item0 item hnd, if_neg hit,
        ← bookContains] at h
    · rwa [bookContains, alLookup_alUpdate, if_neg hit, ← bookContains] at h

theorem alNodup_bookRemove (book : Book) (item : Nat) (price : Rat) (j : Nat)
    (hnd : alNodup book) : alNodup (bookRemove book item price j) := by
  unfold bookRemove
  split
  · exact hnd
  split
  · exact alNodup_alErase book item hnd
  · exact alNodup_alUpdate book item _ hnd

/-- `remove_from_book` preserves key-uniqueness of both book sides and
never adds an entry to either index. -/
theorem remove_from_book_books (st : OrderBookService) (j : Nat)
    (hb : alNodup st.buy_orders) (hs : alNodup st.sell_orders) :
    alNodup (remove_from_book st j).buy_orders ∧
      alNodup (remove_from_book st j).sell_orders ∧
      (∀ item i, bookContains (remove_from_book st j).buy_orders item i = true →
        bookContains st.buy_orders item i = true) ∧
      (∀ item i, bookContains (remove_from_book st j).sell_orders item i = true →
        bookContains st.sell_orders item i = true) := by
  unfold remove_from_book
  split
  · exact ⟨hb, hs, fun _ _ h => h, fun _ _ h => h⟩
  split
  · exact ⟨alNodup_bookRemove _ _ _ _ hb, hs,
      fun item i h => bookContains_bookRemove _ _ _ _ _ _ hb h,
      fun _ _ h => h⟩
  · exact ⟨hb, alNodup_bookRemove _ _ _ _ hs,
      fun _ _ h => h,
      fun item i h => bookContains_bookRemove _ _ _ _ _ _ hs h⟩

/-- The matched-order removal loop preserves key-uniqueness and never
adds a book entry. -/
theorem foldl_remove_from_book_books (l : List (Nat × Order)) (s : OrderBookService)
    (hb : alNodup s.buy_orders) (hs : alNodup s.sell_orders) :
    alNodup (l.foldl (fun s p => remove_from_book s p.2.id) s).buy_orders ∧
      alNodup (l.foldl (fun s p => remove_from_book s p.2.id) s).sell_orders ∧
      (∀ item i,
        bookContains (l.foldl (fun s p => remove_from_book s p.2.id) s).buy_orders
            item i = true →
          bookContains s.buy_orders item i = true) ∧
      (∀ item i,
        bookContains (l.foldl (fun s p => remove_from_book s p.2.id) s).sell_orders
            item i = true →
          bookContains s.sell_orders item i = true) := by
  induction l generalizing s with
  | nil => exact ⟨hb, hs, fun _ _ h => h, fun _ _ h => h⟩
  | cons hd tl ih =>
      simp only [List.foldl_cons]
      have h1 := remove_from_book_books s hd.2.id hb hs
      have h2 := ih (remove_from_book s hd.2.id) h1.1 h1.2.1
      exact ⟨h2.1, h2.2.1,
        fun item i h => h1.2.2.1 item i (h2.2.2.1 item i h),
        fun item i h => h1.2.2.2 item i (h2.2.2.2 item i h)⟩

/-! ### Evolution of store entries through the matching walk -/

theorem fillEvol_refl (a : Order) : FillEvol a a :=
  ⟨rfl, rfl, rfl, rfl, rfl, rfl, rfl, rfl, le_refl _, rfl, rfl⟩

theorem fillEvol_trans {a b c : Order} (h1 : FillEvol a b) (h2 : FillEvol b c) :
    FillEvol a c :=
  ⟨h2.1.trans h1.1, h2.2.1.trans h1.2.1, h2.2.2.1.trans h1.2.2.1,
    h2.2.2.2.1.trans h1.2.2.2.1, h2.2.2.2.2.1.trans h1.2.2.2.2.1,
    h2.2.2.2.2.2.1.trans h1.2.2.2.2.2.1,
    h2.2.2.2.2.2.2.1.trans h1.2.2.2.2.2.2.1,
    h2.2.2.2.2.2.2.2.1.trans h1.2.2.2.2.2.2.2.1,
    h1.2.2.2.2.2.2.2.2.1.trans h2.2.2.2.2.2.2.2.2.1,
    h2.2.2.2.2.2.2.2.2.2.1.trans h1.2.2.2.2.2.2.2.2.2.1,
    h2.2.2.2.2.2.2.2.2.2.2.trans h1.2.2.2.2.2.2.2.2.2.2⟩

theorem fillOrders_none (orders : List (Nat × Order)) (now : Nat) (j : Nat)
    (q : Rat) (k : Nat) (h : alLookup orders k = none) :
    alLookup (fillOrders orders now j q) k = none := by
  unfold fillOrders
  split
  · exact h
  rename_i o hj
  rw [alLookup_alUpdate]
  split
  · rename_i he
    rw [he, h] at hj
    cases hj
  · exact h

theorem fillOrders_evol (orders : List (Nat × Order)) (now : Nat) (j : Nat)
    (q : Rat) (k : Nat) (hq : 0 ≤ q) (u : Order)
    (h : alLookup orders k = some u) :
    ∃ u', alLookup (fillOrders orders now j q) k = some u' ∧ FillEvol u u' := by
  unfold fillOrders
  split
  · exact ⟨u, h, fillEvol_refl u⟩
  rename_i o hj
  rw [alLookup_alUpdate]
  by_cases he : j = k
  · subst he
    rw [h] at hj
    injection hj with hj
    subst hj
    refine ⟨_, by rw [if_pos rfl], ?_⟩
    exact ⟨rfl, rfl, rfl, rfl, rfl, rfl, rfl, rfl,
      le_add_of_nonneg_right hq, rfl, rfl⟩
  · rw [if_neg he]
    exact ⟨u, h, fillEvol_refl u⟩

theorem storeEvol_refl (a : List (Nat × Order)) : StoreEvol a a :=
  fun _ => ⟨fun h => h, fun u h => ⟨u, h, fillEvol_refl u⟩⟩

theorem storeEvol_trans {a b c : List (Nat × Order)} (h1 : StoreEvol a b)
    (h2 : StoreEvol b c) : StoreEvol a c := by
  intro k
  refine ⟨fun h => (h2 k).1 ((h1 k).1 h), fun u h => ?_⟩
  obtain ⟨u1, hl1, e1⟩ := (h1 k).2 u h
  obtain ⟨u2, hl2, e2⟩ := (h2 k).2 u1 hl1
  exact ⟨u2, hl2, fillEvol_trans e1 e2⟩

theorem fillOrders_storeEvol (orders : List (Nat × Order)) (now : Nat) (j : Nat)
    (q : Rat) (hq : 0 ≤ q) : StoreEvol orders (fillOrders orders now j q) :=
  fun k => ⟨fillOrders_none orders now j q k, fillOrders_evol orders now j q k hq⟩

theorem matchQueue_storeEvol (now : Nat) (lp : Rat) (queue : List Order) :
    ∀ w : WalkState, StoreEvol w.orders (matchQueue now lp w queue).orders := by
  induction queue with
  | nil => exact fun w => storeEvol_refl w.orders
  | cons r rest ih =>
      intro w
      simp only [matchQueue]
      split
      · exact storeEvol_refl w.orders
      rename_i resting hrest
      split
      · exact storeEvol_refl w.orders
      split
      · exact storeEvol_refl w.orders
      split
      · exact storeEvol_refl w.orders
      rename_i hnotle
      have hq : (0:Rat) ≤ min (resting.quantity - resting.quantity_filled)
          (w.incoming.quantity - w.incoming.quantity_filled) :=
        le_of_lt (not_le.mp hnotle)
      exact storeEvol_trans
        (storeEvol_trans (fillOrders_storeEvol w.orders now resting.id _ hq)
          (fillOrders_storeEvol _ now w.incoming.id _ hq))
        (ih (matchStep now lp w resting))

theorem matchLevels_storeEvol (now : Nat) (levels : List (Rat × List Order)) :
    ∀ w : WalkState, StoreEvol w.orders (matchLevels now w levels).orders := by
  induction levels with
  | nil => exact fun w => storeEvol_refl w.orders
  | cons lvl rest ih =>
      intro w
      obtain ⟨lp, q⟩ := lvl
      rw [matchLevels]
      exact storeEvol_trans (matchQueue_storeEvol now lp q w) (ih _)

/-! ### Books only shrink through matching post-processing -/

theorem booksShrink_refl (a : OrderBookService) : BooksShrink a a :=
  fun hb hs => ⟨hb, hs, fun _ _ h => h, fun _ _ h => h⟩

theorem booksShrink_of_eq {a b : OrderBookService}
    (h1 : b.buy_orders = a.buy_orders) (h2 : b.sell_orders = a.sell_orders) :
    BooksShrink a b := fun hb hs =>
  ⟨h1 ▸ hb, h2 ▸ hs, fun item i h => by rwa [h1] at h,
    fun item i h => by rwa [h2] at h⟩

theorem booksShrink_trans {a b c : OrderBookService}
    (h1 : BooksShrink a b) (h2 : BooksShrink b c) : BooksShrink a c := by
  intro hb hs
  obtain ⟨hb1, hs1, m1, m2⟩ := h1 hb hs
  obtain ⟨hb2, hs2, m3, m4⟩ := h2 hb1 hs1
  exact ⟨hb2, hs2, fun item i h => m1 item i (m3 item i h),
    fun item i h => m2 item i (m4 item i h)⟩

theorem booksShrink_remove (a : OrderBookService) (j : Nat) :
    BooksShrink a (remove_from_book a j) := fun hb hs =>
  remove_from_book_books a j hb hs

theorem booksShrink_foldl (l : List (Nat × Order)) (a : OrderBookService) :
    BooksShrink a (l.foldl (fun s p => remove_from_book s p.2.id) a) := fun hb hs =>
  foldl_remove_from_book_books l a hb hs

theorem booksShrink_rebuild {a X : OrderBookService} (o : List (Nat × Order))
    (t : List Trade) (n : Nat) (h : BooksShrink a X) :
    BooksShrink a
      { orders := o, buy_orders := X.buy_orders, sell_orders := X.sell_orders,
        trades := t, nextId := n } :=
  booksShrink_trans h (booksShrink_of_eq rfl rfl)

set_option maxRecDepth 8192 in
set_option maxHeartbeats 4000000 in
/-- The post-processing of matching only ever removes book entries. -/
theorem execute_post_booksShrink (st : OrderBookService) (now : Nat)
    (incoming : Order) (w : WalkState) (st2 : OrderBookService) (inc : Order)
    (hex : execute_post st now incoming w = some (st2, inc)) :
    BooksShrink st st2 := by
  simp only [execute_post] at hex
  split at hex
  · cases hex
  rename_i ui hui
  repeat' split at hex
  all_goals try cases hex
  all_goals
    repeat first
      | exact booksShrink_refl st
      | refine booksShrink_trans ?_ (booksShrink_remove _ _)
      | refine booksShrink_trans ?_ (booksShrink_foldl _ _)
      | refine booksShrink_trans ?_
          (booksShrink_of_eq (cancel_order_fields _ _ _).1
            (cancel_order_fields _ _ _).2.1)
      | refine booksShrink_trans ?_
          (booksShrink_of_eq (update_order_status_fields _ _ _ _).1
            (update_order_status_fields _ _ _ _).2.1)
      | refine booksShrink_trans ?_
          (booksShrink_of_eq (update_order_quantity_fields _ _ _ _).1
            (update_order_quantity_fields _ _ _ _).2.1)
      | refine booksShrink_rebuild _ _ _ ?_

/-- `execute_order_matching` only ever removes book entries. -/
theorem execute_booksShrink (st : OrderBookService) (now : Nat)
    (incoming : Order) (st2 : OrderBookService) (inc : Order)
    (hex : execute_order_matching st now incoming = some (st2, inc)) :
    BooksShrink st st2 := by
  simp only [execute_order_matching] at hex
  split at hex
  · rw [Option.some_inj, Prod.mk.injEq] at hex
    obtain ⟨h1, h2⟩ := hex
    exact h1 ▸ booksShrink_refl st
  · exact execute_post_booksShrink st now incoming _ st2 inc hex

/-! ### The IOC trim -/

/-- The IOC trim (`update_order_quantity` to the filled amount followed
by `update_order_status` to `Closed`) leaves the incoming order's store
entry with `quantity = quantity_filled` and status `Closed`. -/
theorem ioc_trim_lookup (st1 : OrderBookService) (now : Nat) (id : Nat)
    (ui : Order) (hui : alLookup st1.orders id = some ui) :
    alLookup (update_order_status
        (update_order_quantity st1 now id ui.quantity_filled) now id
          OrderStatus.Closed).orders id
      = some { ui with quantity := ui.quantity_filled,
                       status := OrderStatus.Closed, updated_at := now } := by
  simp only [update_order_quantity, hui]
  simp only [update_order_status, alLookup_alUpdate, if_pos rfl, if_true]

set_option maxHeartbeats 1000000 in
/-- An IOC order whose `execute_order_matching` call grew the trade log
was trimmed and closed: its store entry ends with
`quantity = quantity_filled` and status `Closed`. -/
theorem execute_post_ioc (st : OrderBookService) (now : Nat) (incoming : Order)
    (w : WalkState) (st2 : OrderBookService) (inc : Order)
    (hioc : incoming.time_in_force = .IOC)
    (hex : execute_post st now incoming w = some (st2, inc))
    (htr : st.trades.length < st2.trades.length) :
    ∃ ui, alLookup w.orders incoming.id = some ui ∧
      alLookup st2.orders incoming.id =
        some { ui with quantity := ui.quantity_filled,
                       status := OrderStatus.Closed, updated_at := now } := by
  simp only [execute_post] at hex
  split at hex
  · cases hex
  rename_i ui hui
  refine ⟨ui, hui, ?_⟩
  have hdr : ¬ ((w.trades.length = 0 ∧ incoming.time_in_force = TimeInForce.FOK) ∨
      (incoming.time_in_force = TimeInForce.FOK ∧
        ui.quantity_filled ≠ ui.quantity)) := by
    rw [hioc]
    rintro (⟨_, hc⟩ | ⟨hc, _⟩) <;> cases hc
  simp only [if_neg hdr] at hex
  by_cases hc1 : 0 < w.trades.length ∧ incoming.time_in_force = TimeInForce.IOC
  · simp only [if_pos hc1] at hex
    split at hex
    all_goals cases hex
    · rw [(remove_from_book_fields _ _).1, (foldl_remove_from_book_fields _ _).1]
      exact ioc_trim_lookup _ now incoming.id ui hui
    · rw [(foldl_remove_from_book_fields _ _).1]
      exact ioc_trim_lookup _ now incoming.id ui hui
  · exfalso
    simp only [if_neg hc1] at hex
    have hlen : w.trades.length = 0 := by
      rcases Nat.eq_zero_or_pos w.trades.length with h0 | hpos
      · exact h0
      · exact absurd ⟨hpos, hioc⟩ hc1
    split at hex
    all_goals cases hex
    · rw [show ∀ s : OrderBookService, s.trades.length = s.trades.length from fun _ => rfl] at htr
      simp only [(remove_from_book_fields _ _).2.1, (foldl_remove_from_book_fields _ _).2.1,
        List.length_append, hlen] at htr
      omega
    · simp only [(foldl_remove_from_book_fields _ _).2.1,
        List.length_append, hlen] at htr
      omega

/-- `execute_order_matching` for an IOC order that grew the trade log:
the incoming order's store entry ends trimmed (`quantity =
quantity_filled`) and `Closed`, and the entry evolved from the inserted
incoming order. -/
theorem execute_ioc (stIn : OrderBookService) (now : Nat) (incoming : Order)
    (st2 : OrderBookService) (inc : Order)
    (hioc : incoming.time_in_force = .IOC)
    (hex : execute_order_matching stIn now incoming = some (st2, inc))
    (htr : stIn.trades.length < st2.trades.length)
    (hin : alLookup stIn.orders incoming.id = some incoming) :
    ∃ ui, FillEvol incoming ui ∧
      alLookup st2.orders incoming.id =
        some { ui with quantity := ui.quantity_filled,
                       status := OrderStatus.Closed, updated_at := now } := by
  simp only [execute_order_matching] at hex
  split at hex
  · rw [Option.some_inj, Prod.mk.injEq] at hex
    obtain ⟨h1, _⟩ := hex
    rw [← h1] at htr
    exact absurd htr (lt_irrefl _)
  · obtain ⟨ui, hui, hfinal⟩ :=
      execute_post_ioc stIn now incoming _ st2 inc hioc hex htr
    obtain ⟨u', hu', e⟩ := (matchLevels_storeEvol now _
      ⟨stIn.orders, stIn.nextId, [], [], incoming⟩ incoming.id).2 incoming hin
    rw [hui] at hu'
    injection hu' with hu'
    exact ⟨ui, hu' ▸ e, hfinal⟩

/-- **C4** amended.  An IOC `add_order` call that executed at least one
trade (the committed log grew) returns the order trimmed
(`quantity = quantity_filled`) and `Closed`, and its identifier is
inserted into neither price-level index.  The hypotheses ask only that
the books have unique keys and do not already contain the fresh
identifier `st.nextId`.  (The counterexample
`ioc_no_match_rests_open_on_book` shows the unamended claim fails when
the IOC matches nothing: the order rests `Open` on the book.) -/
theorem ioc_with_trades_trims_and_closes (st : OrderBookService) (now : Nat)
    (r : CreateOrderRequest) (o : Order) (st' : OrderBookService)
    (hndb : alNodup st.buy_orders) (hnds : alNodup st.sell_orders)
    (hfb : bookContains st.buy_orders r.item_id st.nextId = false)
    (hfs : bookContains st.sell_orders r.item_id st.nextId = false)
    (hok : add_order st now r = .ok o st')
    (hioc : r.time_in_force = .IOC)
    (htr : st.trades.length < st'.trades.length) :
    o.id = st.nextId ∧ o.quantity = o.quantity_filled ∧
      o.status = OrderStatus.Closed ∧
      bookContains st'.buy_orders r.item_id o.id = false ∧
      bookContains st'.sell_orders r.item_id o.id = false := by
  simp only [add_order] at hok
  split at hok
  · cases hok
  split at hok
  · cases hok
  split at hok
  · cases hok
  rename_i order1 heq
  have hord : order1.id = st.nextId ∧ order1.item_id = r.item_id ∧
      order1.time_in_force = r.time_in_force := by
    split at heq
    · split at heq
      · split at heq
        · cases heq
        · injection heq with h
          subst h
          exact ⟨rfl, rfl, rfl⟩
      · cases heq
    · injection heq with h
      subst h
      exact ⟨rfl, rfl, rfl⟩
  obtain ⟨hid, hitem, htif⟩ := hord
  rw [hioc] at htif
  have hin1 : alLookup (alUpdate st.orders order1.id order1) order1.id
      = some order1 := by
    rw [alLookup_alUpdate, if_pos rfl]
  simp only [add_order_commit] at hok
  split at hok
  · cases hok
  rename_i st2v inc2 hexec
  split at hok
  · cases hok
  rename_i updated hupd
  split at hok
  · rename_i hstat
    split at hok
    all_goals cases hok
    all_goals
      obtain ⟨ui, evol, hlook⟩ := execute_ioc _ now order1 st2v inc2 htif hexec htr hin1
    all_goals rw [hupd] at hlook
    all_goals injection hlook with hupd2
    all_goals rw [hupd2] at hstat
    all_goals simp at hstat
  · cases hok
    obtain ⟨ui, evol, hlook⟩ := execute_ioc _ now order1 st' inc2 htif hexec htr hin1
    rw [hupd] at hlook
    injection hlook with hupd2
    subst hupd2
    have hidv : ui.id = st.nextId := evol.1.trans hid
    have hbs := execute_booksShrink _ now order1 st' inc2 hexec
    obtain ⟨_, _, mbuy, msell⟩ := hbs hndb hnds
    refine ⟨hidv, rfl, rfl, ?_, ?_⟩
    · show bookContains st'.buy_orders r.item_id ui.id = false
      rw [hidv]
      cases hcb : bookContains st'.buy_orders r.item_id st.nextId with
      | false => rfl
      | true =>
          have hc := mbuy r.item_id st.nextId hcb
          rw [hfb] at hc
          cases hc
    · show bookContains st'.sell_orders r.item_id ui.id = false
      rw [hidv]
      cases hcb : bookContains st'.sell_orders r.item_id st.nextId with
      | false => rfl
      | true =>
          have hc := msell r.item_id st.nextId hcb
          rw [hfs] at hc
          cases hc

/-! ### The fill-bound invariant and fill monotonicity (C9) -/

theorem alLookup_mem {α : Type} (l : List (Nat × α)) (k : Nat) (v : α)
    (h : alLookup l k = some v) : (k, v) ∈ l := by
  induction l with
  | nil => cases h
  | cons a rest ih =>
      obtain ⟨ka, va⟩ := a
      simp only [alLookup] at h
      split at h
      · rename_i he
        injection h with hv
        rw [← he, ← hv]
        exact List.mem_cons_self _ _
      · exact List.mem_cons_of_mem _ (ih h)

theorem mem_alUpdate {α : Type} (l : List (Nat × α)) (k : Nat) (v : α)
    (p : Nat × α) (h : p ∈ alUpdate l k v) : p ∈ l ∨ p = (k, v) := by
  induction l with
  | nil =>
      right
      simpa [alUpdate] using h
  | cons a rest ih =>
      obtain ⟨ka, va⟩ := a
      simp only [alUpdate] at h
      split at h
      · rename_i he
        rcases List.mem_cons.mp h with h | h
        · right
          rw [h, he]
        · left
          exact List.mem_cons_of_mem _ h
      · rcases List.mem_cons.mp h with h | h
        · left
          rw [h]
          exact List.mem_cons_self _ _
        · rcases ih h with h | h
          · left
            exact List.mem_cons_of_mem _ h
          · right
            exact h

theorem storeBounds_alUpdate (orders : List (Nat × Order)) (k : Nat) (v : Order)
    (hb : StoreBounds orders)
    (hv : 0 ≤ v.quantity_filled ∧ v.quantity_filled ≤ v.quantity) :
    StoreBounds (alUpdate orders k v) := by
  intro p hp
  rcases mem_alUpdate orders k v p hp with h | h
  · exact hb p h
  · rw [h]
    exact hv

theorem storeIds_alUpdate (orders : List (Nat × Order)) (k : Nat) (v : Order)
    (hi : StoreIds orders) (hv : v.id = k) : StoreIds (alUpdate orders k v) :=
  fun p hp => (mem_alUpdate orders k v p hp).elim (hi p)
    (fun h => by rw [h]; exact hv)

theorem fillOrders_bounds (orders : List (Nat × Order)) (now : Nat) (j : Nat)
    (q : Rat) (hb : StoreBounds orders)
    (hq : ∀ u, alLookup orders j = some u →
      0 ≤ q ∧ u.quantity_filled + q ≤ u.quantity) :
    StoreBounds (fillOrders orders now j q) := by
  simp only [fillOrders]
  split
  · exact hb
  · rename_i o ho
    obtain ⟨hq0, hle⟩ := hq o ho
    refine storeBounds_alUpdate _ _ _ hb ⟨?_, hle⟩
    exact add_nonneg (hb (j, o) (alLookup_mem _ _ _ ho)).1 hq0

theorem storeIds_fillOrders (orders : List (Nat × Order)) (now : Nat) (j : Nat)
    (q : Rat) (hi : StoreIds orders) : StoreIds (fillOrders orders now j q) := by
  simp only [fillOrders]
  split
  · exact hi
  · rename_i o ho
    intro p hp
    rcases mem_alUpdate _ _ _ p hp with h | h
    · exact hi p h
    · rw [h]
      exact hi (j, o) (alLookup_mem _ _ _ ho)

theorem alLookup_fillOrders_ne (orders : List (Nat × Order)) (now : Nat)
    (j : Nat) (q : Rat) (k : Nat) (hk : k ≠ j) :
    alLookup (fillOrders orders now j q) k = alLookup orders k := by
  simp only [fillOrders]
  split
  · rfl
  · rw [alLookup_alUpdate, if_neg (fun h => hk h.symm)]

theorem syncIncoming_id (orders : List (Nat × Order)) (i : Order) :
    (syncIncoming orders i).id = i.id := by
  unfold syncIncoming
  split <;> rfl

theorem syncIncoming_sync (orders : List (Nat × Order)) (i : Order) (u : Order)
    (hu : alLookup orders (syncIncoming orders i).id = some u) :
    u.quantity = (syncIncoming orders i).quantity ∧
      u.quantity_filled = (syncIncoming orders i).quantity_filled := by
  rw [syncIncoming_id] at hu
  unfold syncIncoming
  split
  · rename_i o ho
    have he : o = u := Option.some.inj (ho.symm.trans hu)
    subst he
    exact ⟨rfl, rfl⟩
  · rename_i ho
    rw [ho] at hu
    cases hu

theorem matchStep_incoming_id (now : Nat) (lp : Rat) (w : WalkState)
    (resting : Order) :
    (matchStep now lp w resting).incoming.id = w.incoming.id := by
  simp only [matchStep]
  exact syncIncoming_id _ _

theorem matchStep_incSync (now : Nat) (lp : Rat) (w : WalkState)
    (resting : Order) : IncSync (matchStep now lp w resting) := by
  intro u hu
  exact syncIncoming_sync _ _ u hu

theorem matchStep_storeIds (now : Nat) (lp : Rat) (w : WalkState)
    (resting : Order) (hi : StoreIds w.orders) :
    StoreIds (matchStep now lp w resting).orders := by
  simp only [matchStep]
  exact storeIds_fillOrders _ _ _ _ (storeIds_fillOrders _ _ _ _ hi)

theorem matchStep_bounds (now : Nat) (lp : Rat) (w : WalkState) (resting : Order)
    (hb : StoreBounds w.orders) (hs : IncSync w)
    (hres : alLookup w.orders resting.id = some resting)
    (hne : resting.id ≠ w.incoming.id)
    (hpos : 0 < min (resting.quantity - resting.quantity_filled)
      (w.incoming.quantity - w.incoming.quantity_filled)) :
    StoreBounds (matchStep now lp w resting).orders := by
  have hq0 : (0:Rat) ≤ min (resting.quantity - resting.quantity_filled)
      (w.incoming.quantity - w.incoming.quantity_filled) := le_of_lt hpos
  simp only [matchStep]
  refine fillOrders_bounds _ _ _ _ ?_ ?_
  · refine fillOrders_bounds _ _ _ _ hb ?_
    intro u hu
    have he : resting = u := Option.some.inj (hres.symm.trans hu)
    subst he
    refine ⟨hq0, ?_⟩
    have hm := min_le_left (resting.quantity - resting.quantity_filled)
      (w.incoming.quantity - w.incoming.quantity_filled)
    linarith
  · intro u hu
    rw [alLookup_fillOrders_ne _ _ _ _ _ (fun h => hne h.symm)] at hu
    obtain ⟨hqe, hfe⟩ := hs u hu
    refine ⟨hq0, ?_⟩
    have hm := min_le_right (resting.quantity - resting.quantity_filled)
      (w.incoming.quantity - w.incoming.quantity_filled)
    rw [hqe, hfe]
    linarith

theorem matchQueue_bounds (now : Nat) (lp : Rat) (queue : List Order) :
    ∀ w : WalkState, StoreBounds w.orders → StoreIds w.orders → IncSync w →
      (∀ o ∈ queue, o.id ≠ w.incoming.id) →
      StoreBounds (matchQueue now lp w queue).orders ∧
        StoreIds (matchQueue now lp w queue).orders ∧
        IncSync (matchQueue now lp w queue) ∧
        (matchQueue now lp w queue).incoming.id = w.incoming.id := by
  induction queue with
  | nil => exact fun w hb hi hs _ => ⟨hb, hi, hs, rfl⟩
  | cons r rest ih =>
      intro w hb hi hs hq
      simp only [matchQueue]
      split
      · exact ⟨hb, hi, hs, rfl⟩
      rename_i resting hres
      split
      · exact ⟨hb, hi, hs, rfl⟩
      split
      · exact ⟨hb, hi, hs, rfl⟩
      split
      · exact ⟨hb, hi, hs, rfl⟩
      rename_i h3
      have hrid : resting.id = r.id := hi (r.id, resting) (alLookup_mem _ _ _ hres)
      have hres' : alLookup w.orders resting.id = some resting := by
        rw [hrid]
        exact hres
      have hne : resting.id ≠ w.incoming.id := by
        rw [hrid]
        exact hq r (List.mem_cons_self _ _)
      obtain ⟨b2, i2, s2, id2⟩ := ih (matchStep now lp w resting)
        (matchStep_bounds now lp w resting hb hs hres' hne (not_le.mp h3))
        (matchStep_storeIds now lp w resting hi)
        (matchStep_incSync now lp w resting)
        (fun o ho => by
          rw [matchStep_incoming_id]
          exact hq o (List.mem_cons_of_mem _ ho))
      exact ⟨b2, i2, s2, id2.trans (matchStep_incoming_id now lp w resting)⟩

theorem matchLevels_bounds (now : Nat) (levels : List (Rat × List Order)) :
    ∀ w : WalkState, StoreBounds w.orders → StoreIds w.orders → IncSync w →
      (∀ lvl ∈ levels, ∀ o ∈ lvl.2, o.id ≠ w.incoming.id) →
      StoreBounds (matchLevels now w levels).orders ∧
        StoreIds (matchLevels now w levels).orders ∧
        IncSync (matchLevels now w levels) ∧
        (matchLevels now w levels).incoming.id = w.incoming.id := by
  induction levels with
  | nil => exact fun w hb hi hs _ => ⟨hb, hi, hs, rfl⟩
  | cons lvl rest ih =>
      intro w hb hi hs hq
      obtain ⟨lp, q⟩ := lvl
      rw [matchLevels]
      obtain ⟨qb, qi, qs, qid⟩ := matchQueue_bounds now lp q w hb hi hs
        (fun o ho => hq (lp, q) (List.mem_cons_self _ _) o ho)
      obtain ⟨rb, ri, rs, rid⟩ := ih (matchQueue now lp w q) qb qi qs
        (fun lvl hl o ho => by
          rw [qid]
          exact hq lvl (List.mem_cons_of_mem _ hl) o ho)
      exact ⟨rb, ri, rs, rid.trans qid⟩

theorem filledMono_refl (a : List (Nat × Order)) : FilledMono a a :=
  fun _ u hu => ⟨u, hu, le_refl _⟩

theorem filledMono_trans {a b c : List (Nat × Order)} (h1 : FilledMono a b)
    (h2 : FilledMono b c) : FilledMono a c := by
  intro k u hu
  obtain ⟨u1, hu1, l1⟩ := h1 k u hu
  obtain ⟨u2, hu2, l2⟩ := h2 k u1 hu1
  exact ⟨u2, hu2, le_trans l1 l2⟩

theorem storeEvol_filledMono {a b : List (Nat × Order)} (h : StoreEvol a b) :
    FilledMono a b := by
  intro k u hu
  obtain ⟨u', hl, e⟩ := (h k).2 u hu
  exact ⟨u', hl, e.2.2.2.2.2.2.2.2.1⟩

theorem filledMono_alUpdate_keep (orders : List (Nat × Order)) (i : Nat)
    (o v : Order) (ho : alLookup orders i = some o)
    (hv : o.quantity_filled ≤ v.quantity_filled) :
    FilledMono orders (alUpdate orders i v) := by
  intro k u hu
  rw [alLookup_alUpdate]
  split
  · rename_i he
    have huo : o = u := Option.some.inj ((he ▸ ho).symm.trans hu)
    exact ⟨v, rfl, huo ▸ hv⟩
  · exact ⟨u, hu, le_refl _⟩

theorem update_order_status_filledMono (st : OrderBookService) (now : Nat)
    (i : Nat) (s : OrderStatus) :
    FilledMono st.orders (update_order_status st now i s).orders := by
  simp only [update_order_status]
  split
  · exact filledMono_refl _
  · rename_i o ho
    exact filledMono_alUpdate_keep _ _ o _ ho (le_refl _)

theorem cancel_order_filledMono (st : OrderBookService) (now : Nat) (i : Nat) :
    FilledMono st.orders (cancel_order st now i).2.orders := by
  simp only [cancel_order]
  split
  · exact filledMono_refl _
  · rename_i o ho
    exact filledMono_alUpdate_keep _ _ o _ ho (le_refl _)

theorem update_order_quantity_filledMono (st : OrderBookService) (now : Nat)
    (i : Nat) (q : Rat) :
    FilledMono st.orders (update_order_quantity st now i q).orders := by
  simp only [update_order_quantity]
  split
  · exact filledMono_refl _
  · rename_i o ho
    exact filledMono_alUpdate_keep _ _ o _ ho (le_refl _)

theorem update_order_price_filledMono (st : OrderBookService) (now : Nat)
    (i : Nat) (p : Rat) :
    FilledMono st.orders (update_order_price st now i p).orders := by
  simp only [update_order_price]
  split
  · exact filledMono_refl _
  · rename_i o ho
    exact filledMono_alUpdate_keep _ _ o _ ho (le_refl _)

theorem update_order_status_bounds (st : OrderBookService) (now : Nat)
    (i : Nat) (s : OrderStatus) (hb : StoreBounds st.orders) :
    StoreBounds (update_order_status st now i s).orders := by
  simp only [update_order_status]
  split
  · exact hb
  · rename_i o ho
    exact storeBounds_alUpdate _ _ _ hb (hb (i, o) (alLookup_mem _ _ _ ho))

theorem cancel_order_bounds (st : OrderBookService) (now : Nat) (i : Nat)
    (hb : StoreBounds st.orders) :
    StoreBounds (cancel_order st now i).2.orders := by
  simp only [cancel_order]
  split
  · exact hb
  · rename_i o ho
    exact storeBounds_alUpdate _ _ _ hb (hb (i, o) (alLookup_mem _ _ _ ho))

theorem update_order_price_bounds (st : OrderBookService) (now : Nat)
    (i : Nat) (p : Rat) (hb : StoreBounds st.orders) :
    StoreBounds (update_order_price st now i p).orders := by
  simp only [update_order_price]
  split
  · exact hb
  · rename_i o ho
    exact storeBounds_alUpdate _ _ _ hb (hb (i, o) (alLookup_mem _ _ _ ho))

theorem update_order_quantity_bounds (st : OrderBookService) (now : Nat)
    (i : Nat) (q : Rat)
    (hq : ∀ u, alLookup st.orders i = some u → u.quantity_filled ≤ q)
    (hb : StoreBounds st.orders) :
    StoreBounds (update_order_quantity st now i q).orders := by
  simp only [update_order_quantity]
  split
  · exact hb
  · rename_i o ho
    refine storeBounds_alUpdate _ _ _ hb ⟨?_, hq o ho⟩
    exact (hb (i, o) (alLookup_mem _ _ _ ho)).1

/-- The IOC trim keeps the fill bounds: the new quantity is the target
entry's own `quantity_filled`. -/
theorem ioc_trim_bounds (st1 : OrderBookService) (now : Nat) (id : Nat)
    (ui : Order) (hui : alLookup st1.orders id = some ui)
    (hb : StoreBounds st1.orders) :
    StoreBounds (update_order_status
      (update_order_quantity st1 now id ui.quantity_filled) now id
        OrderStatus.Closed).orders := by
  refine update_order_status_bounds _ _ _ _ ?_
  refine update_order_quantity_bounds _ _ _ _ ?_ hb
  intro u hu
  exact le_of_eq (congrArg Order.quantity_filled
    (Option.some.inj (hui.symm.trans hu))).symm

theorem ioc_trim_filledMono (st1 : OrderBookService) (now : Nat) (id : Nat)
    (ui : Order) :
    FilledMono st1.orders (update_order_status
      (update_order_quantity st1 now id ui.quantity_filled) now id
        OrderStatus.Closed).orders :=
  filledMono_trans (update_order_quantity_filledMono st1 now id _)
    (update_order_status_filledMono _ now id _)

theorem storeBounds_remove (s : OrderBookService) (j : Nat)
    (h : StoreBounds s.orders) : StoreBounds (remove_from_book s j).orders := by
  rw [(remove_from_book_fields s j).1]
  exact h

theorem storeBounds_foldl (l : List (Nat × Order)) (s : OrderBookService)
    (h : StoreBounds s.orders) :
    StoreBounds (l.foldl (fun s p => remove_from_book s p.2.id) s).orders := by
  rw [(foldl_remove_from_book_fields l s).1]
  exact h

theorem filledMono_remove {a : List (Nat × Order)} (s : OrderBookService)
    (j : Nat) (h : FilledMono a s.orders) :
    FilledMono a (remove_from_book s j).orders := by
  rw [(remove_from_book_fields s j).1]
  exact h

theorem filledMono_foldl {a : List (Nat × Order)} (l : List (Nat × Order))
    (s : OrderBookService) (h : FilledMono a s.orders) :
    FilledMono a (l.foldl (fun s p => remove_from_book s p.2.id) s).orders := by
  rw [(foldl_remove_from_book_fields l s).1]
  exact h

set_option maxRecDepth 8192 in
set_option maxHeartbeats 4000000 in
/-- The post-processing of matching preserves the fill bounds of the
walked store. -/
theorem execute_post_bounds (st : OrderBookService) (now : Nat)
    (incoming : Order) (w : WalkState) (st2 : OrderBookService) (inc : Order)
    (hex : execute_post st now incoming w = some (st2, inc))
    (hb : StoreBounds w.orders) : StoreBounds st2.orders := by
  simp only [execute_post] at hex
  split at hex
  · cases hex
  rename_i ui hui
  repeat' split at hex
  all_goals try cases hex
  all_goals
    repeat first
      | exact hb
      | exact ioc_trim_bounds _ now incoming.id ui hui hb
      | refine storeBounds_remove _ _ ?_
      | refine storeBounds_foldl _ _ ?_
      | refine cancel_order_bounds _ _ _ ?_

set_option maxRecDepth 8192 in
set_option maxHeartbeats 4000000 in
/-- The post-processing of matching never decreases any entry's
`quantity_filled` and never drops a store entry. -/
theorem execute_post_filledMono (st : OrderBookService) (now : Nat)
    (incoming : Order) (w : WalkState) (st2 : OrderBookService) (inc : Order)
    (hex : execute_post st now incoming w = some (st2, inc)) :
    FilledMono w.orders st2.orders := by
  simp only [execute_post] at hex
  split at hex
  · cases hex
  rename_i ui hui
  repeat' split at hex
  all_goals try cases hex
  all_goals
    repeat first
      | exact filledMono_refl _
      | exact ioc_trim_filledMono
          { st with orders := w.orders, nextId := w.nextId } now incoming.id ui
      | refine filledMono_trans ?_ (cancel_order_filledMono _ now incoming.id)
      | refine filledMono_remove _ _ ?_
      | refine filledMono_foldl _ _ ?_

/-- `execute_order_matching` preserves the fill bounds and never
decreases any entry's `quantity_filled`, provided the store is
id-consistent, the incoming order agrees with its store entry, and no
book entry carries the incoming order's id. -/
theorem execute_bounds (stIn : OrderBookService) (now : Nat) (incoming : Order)
    (st2 : OrderBookService) (inc : Order)
    (hex : execute_order_matching stIn now incoming = some (st2, inc))
    (hb : StoreBounds stIn.orders) (hi : StoreIds stIn.orders)
    (hsync : ∀ u, alLookup stIn.orders incoming.id = some u →
      u.quantity = incoming.quantity ∧
        u.quantity_filled = incoming.quantity_filled)
    (hbi : BookIdsLt stIn.buy_orders incoming.id)
    (hsi : BookIdsLt stIn.sell_orders incoming.id) :
    StoreBounds st2.orders ∧ FilledMono stIn.orders st2.orders := by
  simp only [execute_order_matching] at hex
  split at hex
  · rw [Option.some_inj, Prod.mk.injEq] at hex
    obtain ⟨h1, _⟩ := hex
    rw [← h1]
    exact ⟨hb, filledMono_refl _⟩
  · rename_i pms hpm
    have hq : ∀ lvl ∈ (match incoming.order_side with
        | OrderSide.Buy => pms
        | OrderSide.Sell => pms.reverse), ∀ o ∈ lvl.2, o.id ≠ incoming.id := by
      cases hside : incoming.order_side with
      | Buy =>
          rw [hside] at hpm
          intro lvl hl o ho hcon
          have hlt := hsi (incoming.item_id, pms) (alLookup_mem _ _ _ hpm)
            lvl hl o ho
          rw [hcon] at hlt
          exact lt_irrefl _ hlt
      | Sell =>
          rw [hside] at hpm
          intro lvl hl o ho hcon
          have hlt := hbi (incoming.item_id, pms) (alLookup_mem _ _ _ hpm)
            lvl (List.mem_reverse.mp hl) o ho
          rw [hcon] at hlt
          exact lt_irrefl _ hlt
    obtain ⟨wb, _, _, _⟩ := matchLevels_bounds now _
      ⟨stIn.orders, stIn.nextId, [], [], incoming⟩ hb hi hsync hq
    exact ⟨execute_post_bounds _ _ _ _ _ _ hex wb,
      filledMono_trans (storeEvol_filledMono (matchLevels_storeEvol now _
        ⟨stIn.orders, stIn.nextId, [], [], incoming⟩))
        (execute_post_filledMono _ _ _ _ _ _ hex)⟩

/-- **C9** amended.  The fill-bound invariant `0 ≤ quantity_filled ≤
quantity` is preserved by every public operation — `add_order` (given
the standing well-formedness of a reachable state: bounds, stored ids
matching their keys, a fresh counter, and book ids below the counter),
`cancel_order`, `update_order_status`, `update_order_price` — and by
`update_order_quantity` exactly when the new quantity is at least the
entry's `quantity_filled`; moreover every such operation keeps every
store entry and never decreases its `quantity_filled`.  (The
counterexample `update_order_quantity_breaks_fill_bounds` shows the
unamended claim fails: `update_order_quantity` accepts a quantity below
`quantity_filled`.) -/
theorem fill_bounds_and_monotonicity (st : OrderBookService) (now : Nat)
    (hb : StoreBounds st.orders) (hids : StoreIds st.orders)
    (hfresh : alLookup st.orders st.nextId = none)
    (hbi : BookIdsLt st.buy_orders st.nextId)
    (hsi : BookIdsLt st.sell_orders st.nextId) :
    (∀ r o st', add_order st now r = .ok o st' →
      StoreBounds st'.orders ∧ FilledMono st.orders st'.orders) ∧
    (∀ i, StoreBounds (cancel_order st now i).2.orders ∧
      FilledMono st.orders (cancel_order st now i).2.orders) ∧
    (∀ i s, StoreBounds (update_order_status st now i s).orders ∧
      FilledMono st.orders (update_order_status st now i s).orders) ∧
    (∀ i p, StoreBounds (update_order_price st now i p).orders ∧
      FilledMono st.orders (update_order_price st now i p).orders) ∧
    (∀ i q, (∀ u, alLookup st.orders i = some u → u.quantity_filled ≤ q) →
      StoreBounds (update_order_quantity st now i q).orders ∧
      FilledMono st.orders (update_order_quantity st now i q).orders) := by
  refine ⟨?_,
    fun i => ⟨cancel_order_bounds st now i hb, cancel_order_filledMono st now i⟩,
    fun i s => ⟨update_order_status_bounds st now i s hb,
      update_order_status_filledMono st now i s⟩,
    fun i p => ⟨update_order_price_bounds st now i p hb,
      update_order_price_filledMono st now i p⟩,
    fun i q hq => ⟨update_order_quantity_bounds st now i q hq hb,
      update_order_quantity_filledMono st now i q⟩⟩
  intro r o st' hok
  simp only [add_order] at hok
  split at hok
  · cases hok
  split at hok
  · cases hok
  rename_i hqpos
  split at hok
  · cases hok
  rename_i order1 heq
  have hord : order1.id = st.nextId ∧ order1.quantity = r.quantity ∧
      order1.quantity_filled = 0 := by
    split at heq
    · split at heq
      · split at heq
        · cases heq
        · injection heq with h
          subst h
          exact ⟨rfl, rfl, rfl⟩
      · cases heq
    · injection heq with h
      subst h
      exact ⟨rfl, rfl, rfl⟩
  obtain ⟨hid, hqty, hfil⟩ := hord
  have hb1 : StoreBounds (alUpdate st.orders order1.id order1) := by
    refine storeBounds_alUpdate _ _ _ hb ?_
    rw [hfil, hqty]
    exact ⟨le_refl 0, le_of_lt (not_le.mp hqpos)⟩
  have hi1 : StoreIds (alUpdate st.orders order1.id order1) :=
    storeIds_alUpdate _ _ _ hids rfl
  have hs1 : ∀ u, alLookup (alUpdate st.orders order1.id order1) order1.id
      = some u → u.quantity = order1.quantity ∧
        u.quantity_filled = order1.quantity_filled := by
    intro u hu
    rw [alLookup_alUpdate, if_pos rfl] at hu
    injection hu with hu
    subst hu
    exact ⟨rfl, rfl⟩
  have hm1 : FilledMono st.orders (alUpdate st.orders order1.id order1) := by
    intro k u hu
    rw [alLookup_alUpdate]
    split
    · rename_i he
      rw [← he, hid, hfresh] at hu
      cases hu
    · exact ⟨u, hu, le_refl _⟩
  have hbi1 : BookIdsLt st.buy_orders order1.id := by
    rw [hid]
    exact hbi
  have hsi1 : BookIdsLt st.sell_orders order1.id := by
    rw [hid]
    exact hsi
  simp only [add_order_commit] at hok
  split at hok
  · cases hok
  rename_i st2v inc2 hexec
  have core := execute_bounds _ now order1 st2v inc2 hexec hb1 hi1 hs1 hbi1 hsi1
  split at hok
  · cases hok
  rename_i updated hupd
  split at hok
  · split at hok
    all_goals cases hok
    all_goals exact ⟨core.1, filledMono_trans hm1 core.2⟩
  · cases hok
    exact ⟨core.1, filledMono_trans hm1 core.2⟩

/-! ### Trade pricing and sizing (C6) -/

theorem storeEvol_back {a b : List (Nat × Order)} (h : StoreEvol a b) (k : Nat)
    (u : Order) (hu : alLookup b k = some u) :
    ∃ u0, alLookup a k = some u0 ∧ FillEvol u0 u := by
  cases h0 : alLookup a k with
  | none =>
      rw [(h k).1 h0] at hu
      cases hu
  | some u0 =>
      obtain ⟨u', hu', e⟩ := (h k).2 u0 h0
      exact ⟨u0, rfl, (Option.some.inj (hu'.symm.trans hu)) ▸ e⟩

theorem matchQueue_incoming_id (now : Nat) (lp : Rat) (queue : List Order) :
    ∀ w : WalkState, (matchQueue now lp w queue).incoming.id = w.incoming.id := by
  induction queue with
  | nil => exact fun _ => rfl
  | cons r rest ih =>
      intro w
      simp only [matchQueue]
      split
      · rfl
      rename_i resting hres
      split
      · rfl
      split
      · rfl
      split
      · rfl
      exact (ih (matchStep now lp w resting)).trans
        (matchStep_incoming_id now lp w resting)

/-- Every trade staged while walking one price level prints at that
level's price, which is also the resolved maker's store price; its
quantity is the positive minimum of the maker's and the taker's
remaining quantities at the moment of the match.  `pairs` lists each
new trade with the maker's store entry and the local incoming order as
they were when the trade was staged. -/
theorem matchQueue_pricing (now : Nat) (lp : Rat) (queue : List Order) :
    ∀ w : WalkState,
      (∀ r ∈ queue, ∀ u, alLookup w.orders r.id = some u → u.price = lp) →
      ∃ pairs : List (Trade × Order × Order),
        (matchQueue now lp w queue).trades = w.trades ++ pairs.map (fun p => p.1) ∧
        ∀ p ∈ pairs,
          p.1.price = lp ∧ p.2.1.price = lp ∧ 0 < p.1.quantity ∧
          p.1.quantity = min (p.2.1.quantity - p.2.1.quantity_filled)
            (p.2.2.quantity - p.2.2.quantity_filled) ∧
          p.2.2.id = w.incoming.id := by
  induction queue with
  | nil =>
      intro w _
      exact ⟨[], by simp [matchQueue], fun p hp => absurd hp (List.not_mem_nil p)⟩
  | cons r rest ih =>
      intro w hw
      simp only [matchQueue]
      split
      · exact ⟨[], by simp, fun p hp => absurd hp (List.not_mem_nil p)⟩
      rename_i resting hres
      split
      · exact ⟨[], by simp, fun p hp => absurd hp (List.not_mem_nil p)⟩
      split
      · exact ⟨[], by simp, fun p hp => absurd hp (List.not_mem_nil p)⟩
      split
      · exact ⟨[], by simp, fun p hp => absurd hp (List.not_mem_nil p)⟩
      rename_i h3
      have hq0 : (0:Rat) ≤ min (resting.quantity - resting.quantity_filled)
          (w.incoming.quantity - w.incoming.quantity_filled) :=
        le_of_lt (not_le.mp h3)
      have hstep : StoreEvol w.orders (matchStep now lp w resting).orders :=
        storeEvol_trans (fillOrders_storeEvol w.orders now resting.id _ hq0)
          (fillOrders_storeEvol _ now w.incoming.id _ hq0)
      have hw' : ∀ r' ∈ rest, ∀ u,
          alLookup (matchStep now lp w resting).orders r'.id = some u →
            u.price = lp := by
        intro r' hr' u hu
        obtain ⟨u0, hu0, e⟩ := storeEvol_back hstep r'.id u hu
        rw [e.2.2.2.2.2.2.1]
        exact hw r' (List.mem_cons_of_mem _ hr') u0 hu0
      obtain ⟨pairs', htr', hpr'⟩ := ih (matchStep now lp w resting) hw'
      refine ⟨((⟨w.nextId,
          if w.incoming.order_side = .Buy then w.incoming.id else resting.id,
          if w.incoming.order_side = .Sell then w.incoming.id else resting.id,
          w.incoming.item_id,
          min (resting.quantity - resting.quantity_filled)
            (w.incoming.quantity - w.incoming.quantity_filled),
          lp, now⟩ : Trade), resting, w.incoming) :: pairs', ?_, ?_⟩
      · rw [htr']
        simp only [matchStep]
        simp [List.append_assoc]
      · intro p hp
        rcases List.mem_cons.mp hp with rfl | hp
        · exact ⟨rfl, hw r (List.mem_cons_self _ _) resting hres,
            not_le.mp h3, rfl, rfl⟩
        · obtain ⟨h1, h2, h3', h4, h5⟩ := hpr' p hp
          exact ⟨h1, h2, h3', h4,
            h5.trans (matchStep_incoming_id now lp w resting)⟩

/-- Lifting `matchQueue_pricing` over all walked price levels: every
trade staged by the walk prints at its maker's store price with the
positive min-of-remainders quantity. -/
theorem matchLevels_pricing (now : Nat) (levels : List (Rat × List Order)) :
    ∀ w : WalkState,
      (∀ lvl ∈ levels, ∀ r ∈ lvl.2, ∀ u, alLookup w.orders r.id = some u →
        u.price = lvl.1) →
      ∃ pairs : List (Trade × Order × Order),
        (matchLevels now w levels).trades = w.trades ++ pairs.map (fun p => p.1) ∧
        ∀ p ∈ pairs,
          p.1.price = p.2.1.price ∧ 0 < p.1.quantity ∧
          p.1.quantity = min (p.2.1.quantity - p.2.1.quantity_filled)
            (p.2.2.quantity - p.2.2.quantity_filled) ∧
          p.2.2.id = w.incoming.id := by
  induction levels with
  | nil =>
      intro w _
      exact ⟨[], by simp [matchLevels], fun p hp => absurd hp (List.not_mem_nil p)⟩
  | cons lvl rest ih =>
      intro w hw
      obtain ⟨lp, q⟩ := lvl
      rw [matchLevels]
      obtain ⟨pairs1, htr1, hpr1⟩ := matchQueue_pricing now lp q w
        (fun r hr u hu => hw (lp, q) (List.mem_cons_self _ _) r hr u hu)
      have hev : StoreEvol w.orders (matchQueue now lp w q).orders :=
        matchQueue_storeEvol now lp q w
      have hw' : ∀ lvl ∈ rest, ∀ r ∈ lvl.2, ∀ u,
          alLookup (matchQueue now lp w q).orders r.id = some u →
            u.price = lvl.1 := by
        intro lvl hl r hr u hu
        obtain ⟨u0, hu0, e⟩ := storeEvol_back hev r.id u hu
        rw [e.2.2.2.2.2.2.1]
        exact hw lvl (List.mem_cons_of_mem _ hl) r hr u0 hu0
      obtain ⟨pairs2, htr2, hpr2⟩ := ih (matchQueue now lp w q) hw'
      refine ⟨pairs1 ++ pairs2, ?_, ?_⟩
      · rw [htr2, htr1, List.map_append, List.append_assoc]
      · intro p hp
        rcases List.mem_append.mp hp with hp | hp
        · obtain ⟨h1, h2, h3, h4, h5⟩ := hpr1 p hp
          exact ⟨h1.trans h2.symm, h3, h4, h5⟩
        · obtain ⟨h1, h2, h3, h4⟩ := hpr2 p hp
          exact ⟨h1, h2, h3, h4.trans (matchQueue_incoming_id now lp q w)⟩

/-! ### Price-time priority (C3) -/

theorem mem_pmPush_keys (pm : PriceMap) (p : Rat) (o : Order) (x : Rat)
    (h : x ∈ (pmPush pm p o).map Prod.fst) : x = p ∨ x ∈ pm.map Prod.fst := by
  induction pm with
  | nil =>
      left
      simpa [pmPush] using h
  | cons hd tl ih =>
      obtain ⟨q, os⟩ := hd
      simp only [pmPush] at h
      split at h
      · simp only [List.map_cons, List.mem_cons] at h ⊢
        rcases h with h | h | h
        · exact Or.inl h
        · exact Or.inr (Or.inl h)
        · exact Or.inr (Or.inr h)
      · split at h
        · simp only [List.map_cons, List.mem_cons] at h ⊢
          rcases h with h | h
          · exact Or.inr (Or.inl h)
          · exact Or.inr (Or.inr h)
        · simp only [List.map_cons, List.mem_cons] at h ⊢
          rcases h with h | h
          · exact Or.inr (Or.inl h)
          · rcases ih h with h | h
            · exact Or.inl h
            · exact Or.inr (Or.inr h)

/-- `pmPush` (the model of `entry(price).or_default().push_back`)
inserts at the sorted position: strictly ascending price keys stay
strictly ascending, as in the `BTreeMap` it models. -/
theorem pmPush_sorted (pm : PriceMap) (p : Rat) (o : Order)
    (h : List.Pairwise (fun a b => a < b) (pm.map Prod.fst)) :
    List.Pairwise (fun a b => a < b) ((pmPush pm p o).map Prod.fst) := by
  induction pm with
  | nil => simp [pmPush]
  | cons hd tl ih =>
      obtain ⟨q, os⟩ := hd
      simp only [List.map_cons, List.pairwise_cons] at h
      obtain ⟨hq, htl⟩ := h
      simp only [pmPush]
      split
      · rename_i hpq
        simp only [List.map_cons]
        refine List.Pairwise.cons ?_ (List.Pairwise.cons hq htl)
        intro b hb
        rcases List.mem_cons.mp hb with rfl | hb
        · exact hpq
        · exact lt_trans hpq (hq b hb)
      · split
        · simp only [List.map_cons]
          exact List.Pairwise.cons hq htl
        · rename_i hlt1 hne
          simp only [List.map_cons]
          refine List.Pairwise.cons ?_ (ih htl)
          intro b hb
          rcases mem_pmPush_keys tl p o b hb with rfl | hb
          · exact lt_of_le_of_ne (not_lt.mp hlt1) (fun he => hne he.symm)
          · exact hq b hb

/-- One price level whose first resolvable entry fails the crossing
test stages nothing: the source `break`s out of the level on the first
failed `can_match_price`. -/
theorem matchQueue_stop_buy (now : Nat) (lp : Rat) (queue : List Order)
    (w : WalkState) (hty : w.incoming.order_type = .Limit)
    (hside : w.incoming.order_side = .Buy)
    (hfail : w.incoming.price < lp)
    (hw : ∀ r ∈ queue, ∀ u, alLookup w.orders r.id = some u → u.price = lp) :
    matchQueue now lp w queue = w := by
  cases queue with
  | nil => rfl
  | cons r rest =>
      simp only [matchQueue]
      cases hres : alLookup w.orders r.id with
      | none => rfl
      | some resting =>
          have hp : resting.price = lp := hw r (List.mem_cons_self _ _) resting hres
          have hcm : can_match_price w.incoming resting = false := by
            simp only [can_match_price, hty, hside, hp]
            simp only [decide_eq_false_iff_not, not_le]
            exact hfail
          simp [hcm]

theorem matchQueue_stop_sell (now : Nat) (lp : Rat) (queue : List Order)
    (w : WalkState) (hty : w.incoming.order_type = .Limit)
    (hside : w.incoming.order_side = .Sell)
    (hfail : lp < w.incoming.price)
    (hw : ∀ r ∈ queue, ∀ u, alLookup w.orders r.id = some u → u.price = lp) :
    matchQueue now lp w queue = w := by
  cases queue with
  | nil => rfl
  | cons r rest =>
      simp only [matchQueue]
      cases hres : alLookup w.orders r.id with
      | none => rfl
      | some resting =>
          have hp : resting.price = lp := hw r (List.mem_cons_self _ _) resting hres
          have hcm : can_match_price w.incoming resting = false := by
            simp only [can_match_price, hty, hside, hp]
            simp only [decide_eq_false_iff_not, not_le]
            exact hfail
          simp [hcm]

/-- A Limit order whose price fails the crossing test against every
remaining level leaves the whole walk state untouched: once the
priority-ordered walk reaches a non-crossing price, nothing further is
staged or filled. -/
theorem matchLevels_stop_buy (now : Nat) (levels : List (Rat × List Order)) :
    ∀ w : WalkState, w.incoming.order_type = .Limit →
      w.incoming.order_side = .Buy →
      (∀ lvl ∈ levels, w.incoming.price < lvl.1) →
      (∀ lvl ∈ levels, ∀ r ∈ lvl.2, ∀ u, alLookup w.orders r.id = some u →
        u.price = lvl.1) →
      matchLevels now w levels = w := by
  induction levels with
  | nil => exact fun w _ _ _ _ => rfl
  | cons lvl rest ih =>
      intro w hty hside hfail hw
      obtain ⟨lp, q⟩ := lvl
      rw [matchLevels]
      rw [matchQueue_stop_buy now lp q w hty hside
        (hfail (lp, q) (List.mem_cons_self _ _))
        (fun r hr u hu => hw (lp, q) (List.mem_cons_self _ _) r hr u hu)]
      exact ih w hty hside (fun lvl hl => hfail lvl (List.mem_cons_of_mem _ hl))
        (fun lvl hl => hw lvl (List.mem_cons_of_mem _ hl))

theorem matchLevels_stop_sell (now : Nat) (levels : List (Rat × List Order)) :
    ∀ w : WalkState, w.incoming.order_type = .Limit →
      w.incoming.order_side = .Sell →
      (∀ lvl ∈ levels, lvl.1 < w.incoming.price) →
      (∀ lvl ∈ levels, ∀ r ∈ lvl.2, ∀ u, alLookup w.orders r.id = some u →
        u.price = lvl.1) →
      matchLevels now w levels = w := by
  induction levels with
  | nil => exact fun w _ _ _ _ => rfl
  | cons lvl rest ih =>
      intro w hty hside hfail hw
      obtain ⟨lp, q⟩ := lvl
      rw [matchLevels]
      rw [matchQueue_stop_sell now lp q w hty hside
        (hfail (lp, q) (List.mem_cons_self _ _))
        (fun r hr u hu => hw (lp, q) (List.mem_cons_self _ _) r hr u hu)]
      exact ih w hty hside (fun lvl hl => hfail lvl (List.mem_cons_of_mem _ hl))
        (fun lvl hl => hw lvl (List.mem_cons_of_mem _ hl))

section PricingRuns

attribute [local semireducible] Rat.add Rat.sub Rat.mul Rat.inv

/-- **C6**.  Trade pricing and sizing.  General part: whenever the book
levels resolve consistently (each queued id's store entry carries the
level's price), every trade staged by the matching walk prints at its
maker's store price with quantity equal to the positive minimum of the
maker's and the taker's remaining quantities at the moment of the
match; no zero-quantity trade is staged.  Concrete part: a resting ask
`5 @ 9` crossed by a buy limit `1 @ 10` trades at price 9 — the maker's
price, not the incoming order's 10. -/
theorem trade_pricing_and_sizing :
    (∀ (now : Nat) (levels : List (Rat × List Order)) (w : WalkState),
      (∀ lvl ∈ levels, ∀ r ∈ lvl.2, ∀ p ∈ w.orders, p.1 = r.id →
        p.2.price = lvl.1) →
      ∃ pairs : List (Trade × Order × Order),
        (matchLevels now w levels).trades = w.trades ++ pairs.map (fun p => p.1) ∧
        ∀ p ∈ pairs,
          p.1.price = p.2.1.price ∧ 0 < p.1.quantity ∧
          p.1.quantity = min (p.2.1.quantity - p.2.1.quantity_filled)
            (p.2.2.quantity - p.2.2.quantity_filled) ∧
          p.2.2.id = w.incoming.id) ∧
    ((resOrder c6_res).map (fun o => (o.price, o.quantity_filled))
      = some (10, 1) ∧
     (resState c6_res).map (fun s => s.trades.map fun t => (t.price, t.quantity))
      = some [(9, 1)]) := by
  constructor
  · intro now levels w hw
    exact matchLevels_pricing now levels w
      (fun lvl hl r hr u hu => hw lvl hl r hr (r.id, u) (alLookup_mem _ _ _ hu) rfl)
  · exact ⟨by decide, by decide⟩

/-- **C3**.  Price-time priority.  (i) `pmPush` keeps the price keys of
a level map strictly ascending, so the stored maps walk best-first
(ascending asks for a Buy; the Sell walk reverses them into descending
bids).  (ii) A Limit order that fails the crossing test against every
remaining priority-ordered level leaves the walk state untouched — the
first non-crossing price halts matching.  (iii) FIFO within a level:
with two resting asks `10 @ 10` (ids 0 then 1), a crossing one-unit buy
fills the earlier id 0 only, leaving id 1 untouched. -/
theorem price_time_priority :
    (∀ (pm : PriceMap) (p : Rat) (o : Order),
      List.Pairwise (fun a b => a < b) (pm.map Prod.fst) →
      List.Pairwise (fun a b => a < b) ((pmPush pm p o).map Prod.fst)) ∧
    (∀ (now : Nat) (levels : List (Rat × List Order)) (w : WalkState),
      w.incoming.order_type = .Limit →
      (∀ lvl ∈ levels, ∀ r ∈ lvl.2, ∀ p ∈ w.orders, p.1 = r.id →
        p.2.price = lvl.1) →
      ((w.incoming.order_side = .Buy →
        (∀ lvl ∈ levels, w.incoming.price < lvl.1) →
        matchLevels now w levels = w) ∧
       (w.incoming.order_side = .Sell →
        (∀ lvl ∈ levels, lvl.1 < w.incoming.price) →
        matchLevels now w levels = w))) ∧
    ((resState c3_res).map (fun s => s.trades.map fun t =>
        (t.buy_order_id, t.sell_order_id, t.quantity, t.price))
      = some [(2, 0, 1, 10)] ∧
     (resState c3_res).map (fun s => (alLookup s.orders 0).map fun o =>
        (o.quantity_filled, o.status)) = some (some (1, .PartiallyFilled)) ∧
     (resState c3_res).map (fun s => (alLookup s.orders 1).map fun o =>
        (o.quantity_filled, o.status)) = some (some (0, .Open))) := by
  refine ⟨fun pm p o h => pmPush_sorted pm p o h, ?_,
    by decide, by decide, by decide⟩
  intro now levels w hty hw
  have hw' : ∀ lvl ∈ levels, ∀ r ∈ lvl.2, ∀ u,
      alLookup w.orders r.id = some u → u.price = lvl.1 :=
    fun lvl hl r hr u hu => hw lvl hl r hr (r.id, u) (alLookup_mem _ _ _ hu) rfl
  exact ⟨fun hside hfail =>
      matchLevels_stop_buy now levels w hty hside hfail hw',
    fun hside hfail =>
      matchLevels_stop_sell now levels w hty hside hfail hw'⟩

end PricingRuns

/-! ### Witnesses for the hypothesis-bearing claim theorems -/

section Witnesses

attribute [local semireducible] Rat.add Rat.sub Rat.mul Rat.inv

/-- A Market buy on an empty service trips the missing-reference-price
error, obtained through the third conjunct of
`add_order_error_behaviour` with its guards discharged concretely. -/
theorem add_order_error_behaviour_witness :
    add_order OrderBookService.new 0 (mkReq .Buy .Market .GTC 10 10) =
      .err no_ref_price_message OrderBookService.new :=
  ((add_order_error_behaviour OrderBookService.new 0
      (mkReq .Buy .Market .GTC 10 10)).2.2.1 (by decide) (by decide)
        rfl).mpr rfl

/-- The IOC buy of the `c4w` run executes one trade against the resting
sell, so `ioc_with_trades_trims_and_closes` applies: the returned order
is trimmed, `Closed` and on neither book side. -/
theorem ioc_with_trades_trims_and_closes_witness :
    (ordOf c4w_res).id = c4w_st.nextId ∧
      (ordOf c4w_res).quantity = (ordOf c4w_res).quantity_filled ∧
      (ordOf c4w_res).status = OrderStatus.Closed ∧
      bookContains (stOf c4w_res).buy_orders c4w_req.item_id
        (ordOf c4w_res).id = false ∧
      bookContains (stOf c4w_res).sell_orders c4w_req.item_id
        (ordOf c4w_res).id = false :=
  ioc_with_trades_trims_and_closes c4w_st 1 c4w_req (ordOf c4w_res)
    (stOf c4w_res) (by decide) (by decide) (by decide) (by decide)
    (by decide) (by decide) (by decide)

/-- The state holding the resting GTC buy `10 @ 10` satisfies all the
well-formedness hypotheses of `fill_bounds_and_monotonicity`, so every
public operation on it preserves the fill bounds as stated. -/
theorem fill_bounds_and_monotonicity_witness :
    (∀ r o st', add_order c9_s1 1 r = .ok o st' →
      StoreBounds st'.orders ∧ FilledMono c9_s1.orders st'.orders) ∧
    (∀ i, StoreBounds (cancel_order c9_s1 1 i).2.orders ∧
      FilledMono c9_s1.orders (cancel_order c9_s1 1 i).2.orders) ∧
    (∀ i s, StoreBounds (update_order_status c9_s1 1 i s).orders ∧
      FilledMono c9_s1.orders (update_order_status c9_s1 1 i s).orders) ∧
    (∀ i p, StoreBounds (update_order_price c9_s1 1 i p).orders ∧
      FilledMono c9_s1.orders (update_order_price c9_s1 1 i p).orders) ∧
    (∀ i q, (∀ u, alLookup c9_s1.orders i = some u → u.quantity_filled ≤ q) →
      StoreBounds (update_order_quantity c9_s1 1 i q).orders ∧
      FilledMono c9_s1.orders (update_order_quantity c9_s1 1 i q).orders) :=
  fill_bounds_and_monotonicity c9_s1 1 (by decide) (by decide) (by decide)
    (by decide) (by decide)

/-- The general pricing statement applied to the concrete `c6` walk:
the sell book of the `c6` run resolves consistently, so the staged
trades all carry the maker price and min-of-remainders sizing. -/
theorem trade_pricing_and_sizing_witness :
    ∃ pairs : List (Trade × Order × Order),
      (matchLevels 1 c6_w c6_levels).trades =
        c6_w.trades ++ pairs.map (fun p => p.1) ∧
      ∀ p ∈ pairs,
        p.1.price = p.2.1.price ∧ 0 < p.1.quantity ∧
        p.1.quantity = min (p.2.1.quantity - p.2.1.quantity_filled)
          (p.2.2.quantity - p.2.2.quantity_filled) ∧
        p.2.2.id = c6_w.incoming.id :=
  trade_pricing_and_sizing.1 1 c6_levels c6_w (by decide)

/-- The stop property applied concretely: a limit buy at 5 leaves the
`c3` book's ask level at 10 — and the whole walk state — untouched. -/
theorem price_time_priority_witness :
    matchLevels 2 c3w_w c3w_levels = c3w_w :=
  (price_time_priority.2.1 2 c3w_levels c3w_w (by decide) (by decide)).1
    (by decide) (by decide)

end Witnesses

end OxideArbiter
